import Mathlib

/-!
Verification of the cv-generator data-transformation pipeline: a shallow
embedding of the key normalizer (utils/validation.py), the Pydantic request
schema (models/schema.py), the parser/generator format adapter
(utils/adapter.py) and the anonymization / context-building code (main.py),
together with proofs about them.

JSON-like Python values are modelled by the mutual inductive family
J / JList / JEntries below.  Python dictionaries are association lists in
insertion order (Python dicts preserve insertion order, and assignment to an
existing key keeps its position, which setKey reproduces).  Fallible Python
code (attribute errors, type errors on malformed input) is modelled with
Except.
-/

namespace CVGen

mutual

/-- A Python/JSON value: string, integer, boolean, None, list or dict. -/
inductive J where
  | str (s : String)
  | int (n : Int)
  | bool (b : Bool)
  | null
  | arr (xs : JList)
  | obj (es : JEntries)

/-- A list of JSON values. -/
inductive JList where
  | nil
  | cons (hd : J) (tl : JList)

/-- Dict entries in insertion order. -/
inductive JEntries where
  | nil
  | cons (k : String) (v : J) (tl : JEntries)

end

/-- First value stored under key k, if any (Python dict lookup; construction
keeps keys unique so the first match is the only one). -/
def lookup (k : String) : JEntries → Option J
  | .nil => none
  | .cons k1 v tl => if k1 = k then some v else lookup k tl

/-- Python membership test k in d. -/
def hasKey (k : String) : JEntries → Bool
  | .nil => false
  | .cons k1 _ tl => if k1 = k then true else hasKey k tl

/-- Python dict assignment d[k] = v: overwrite in place if the key exists
(keeping its position), otherwise append. -/
def setKey (k : String) (v : J) : JEntries → JEntries
  | .nil => .cons k v .nil
  | .cons k1 v1 tl => if k1 = k then .cons k v tl else .cons k1 v1 (setKey k v tl)

/-- The keys of a dict, in order. -/
def keysOf : JEntries → List String
  | .nil => []
  | .cons k _ tl => k :: keysOf tl

/-- Is this value a dict? (Python isinstance(x, dict)). -/
def isObj : J → Bool
  | .obj _ => true
  | _ => false

/-- Python all(isinstance(item, dict) for item in xs). -/
def allObjs : JList → Bool
  | .nil => true
  | .cons hd tl => isObj hd && allObjs tl

/-- Does the list contain at least one dict? -/
def anyObjs : JList → Bool
  | .nil => false
  | .cons hd tl => isObj hd || anyObjs tl

/-- Python truthiness of a value. -/
def jTruthy : J → Bool
  | .str s => !(s = "")
  | .int n => !(n = 0)
  | .bool b => b
  | .null => false
  | .arr .nil => false
  | .arr (.cons _ _) => true
  | .obj .nil => false
  | .obj (.cons _ _ _) => true

/-- needle occurs as a contiguous run inside hay. -/
def charsInfix (needle : List Char) : List Char → Bool
  | [] => needle.isEmpty
  | c :: tl => needle.isPrefixOf (c :: tl) || charsInfix needle tl

/-- Python needle in hay.lower() for strings: the needle literals used by
the adapter are already lowercase, so lowercasing the haystack character by
character gives the case-insensitive substring test. -/
def strContainsLower (needle hay : String) : Bool :=
  charsInfix needle.toList (hay.toList.map Char.toLower)

/-! ## KeyNormalizer: Validation._transform_request_keys -/

/-- The key_mapping table of Validation._transform_request_keys:
known camelCase keys map to snake_case, all other keys pass through. -/
def keyMapping (k : String) : String :=
  if k = "outputFormat" then "output_format"
  else if k = "sectionOrder" then "section_order"
  else if k = "sectionVisibility" then "section_visibility"
  else if k = "isAnonymized" then "is_anonymized"
  else if k = "recruiterProfile" then "recruiter_profile"
  else if k = "firstName" then "first_name"
  else if k = "lastName" then "last_name"
  else if k = "profileStatement" then "profile_statement"
  else if k = "endDate" then "end_date"
  else if k = "startDate" then "start_date"
  else if k = "additionalDetails" then "additional_details"
  else if k = "professionalMemberships" then "professional_memberships"
  else if k = "earlierCareer" then "earlier_career"
  else k

mutual

/-- How _transform_request_keys treats one dict value: recurse into dicts,
map over lists whose elements are all dicts, leave everything else as is. -/
def transformValue : J → J
  | .obj es => .obj (transformEntries es .nil)
  | .arr xs => if allObjs xs then .arr (transformList xs) else .arr xs
  | .str s => .str s
  | .int n => .int n
  | .bool b => .bool b
  | .null => .null

/-- The body of Validation._transform_request_keys: fold over the items in
order, assigning transformed[new_key] = transformed value into the
accumulator dict. -/
def transformEntries : JEntries → JEntries → JEntries
  | .nil, acc => acc
  | .cons k v tl, acc => transformEntries tl (setKey (keyMapping k) (transformValue v) acc)

/-- The list comprehension over a list of dicts. -/
def transformList : JList → JList
  | .nil => .nil
  | .cons hd tl => .cons (transformItem hd) (transformList tl)

/-- One element of a list of dicts (the guard guarantees it is a dict). -/
def transformItem : J → J
  | .obj es => .obj (transformEntries es .nil)
  | .str s => .str s
  | .int n => .int n
  | .bool b => .bool b
  | .null => .null
  | .arr xs => .arr xs

end

/-! ## SchemaValidator: models/schema.py via Pydantic, and
Validation.validate_request -/

/-- Field kinds occurring in the Pydantic models of models/schema.py.
Type checks are modelled structurally: a str field accepts exactly strings
(Pydantic v2 does not coerce numbers to str), an Optional field also accepts
null or absence.  Lax coercions into bool (from 0/1 or "true"-like strings)
are not modelled; the claims under verification only exercise proper
booleans. -/
inductive FKind where
  | reqStr
  | optStr
  | optBool
  | optListStr

/-- Every element of the list is a string. -/
def allStrs : JList → Bool
  | .nil => true
  | .cons (.str _) tl => allStrs tl
  | .cons _ _ => false

/-- Does a field value satisfy its declared kind? -/
def fieldOk : FKind → Option J → Bool
  | .reqStr, some (.str _) => true
  | .reqStr, _ => false
  | .optStr, none => true
  | .optStr, some .null => true
  | .optStr, some (.str _) => true
  | .optStr, _ => false
  | .optBool, none => true
  | .optBool, some .null => true
  | .optBool, some (.bool _) => true
  | .optBool, _ => false
  | .optListStr, none => true
  | .optListStr, some .null => true
  | .optListStr, some (.arr xs) => allStrs xs
  | .optListStr, _ => false

/-- Scalar-field errors of one Pydantic model: one entry per violated field,
in declaration order. -/
def modelErrors : List (String × FKind) → JEntries → List String
  | [], _ => []
  | (k, fk) :: rest, es =>
      (if fieldOk fk (lookup k es) then [] else [k]) ++ modelErrors rest es

/-- Every element of the list validates against the given item model
(each element must itself be a dict). -/
def allModelOk (fields : List (String × FKind)) : JList → Bool
  | .nil => true
  | .cons (.obj es) tl => (modelErrors fields es).isEmpty && allModelOk fields tl
  | .cons _ _ => false

/-- An Optional list-of-submodel field. -/
def optListModelOk (fields : List (String × FKind)) : Option J → Bool
  | none => true
  | some .null => true
  | some (.arr xs) => allModelOk fields xs
  | _ => false

/-- An Optional nested-submodel field. -/
def optModelOk (fields : List (String × FKind)) : Option J → Bool
  | none => true
  | some .null => true
  | some (.obj es) => (modelErrors fields es).isEmpty
  | _ => false

/-- Experience model fields. -/
def experienceFields : List (String × FKind) :=
  [("role", .reqStr), ("company", .reqStr), ("start_date", .reqStr),
   ("end_date", .optStr), ("current", .optBool), ("description", .optStr),
   ("achievements", .optListStr)]

/-- Education model fields. -/
def educationFields : List (String × FKind) :=
  [("institution", .reqStr), ("degree", .reqStr), ("field", .optStr),
   ("start_date", .optStr), ("end_date", .optStr), ("grade", .optStr),
   ("description", .optStr)]

/-- Certification model fields. -/
def certificationFields : List (String × FKind) :=
  [("name", .reqStr), ("issuer", .optStr), ("date", .optStr), ("description", .optStr)]

/-- Achievement model fields. -/
def achievementFields : List (String × FKind) :=
  [("title", .reqStr), ("description", .optStr), ("date", .optStr)]

/-- Language model fields. -/
def languageFields : List (String × FKind) :=
  [("language", .reqStr), ("proficiency", .optStr)]

/-- ProfessionalMembership model fields. -/
def membershipFields : List (String × FKind) :=
  [("organization", .reqStr), ("role", .optStr), ("start_date", .optStr),
   ("end_date", .optStr)]

/-- EarlierCareer model fields. -/
def earlierCareerFields : List (String × FKind) :=
  [("role", .reqStr), ("company", .optStr), ("period", .optStr), ("description", .optStr)]

/-- Publication model fields. -/
def publicationFields : List (String × FKind) :=
  [("title", .reqStr), ("publisher", .optStr), ("date", .optStr), ("url", .optStr),
   ("description", .optStr)]

/-- RecruiterProfile model fields. -/
def recruiterProfileFields : List (String × FKind) :=
  [("first_name", .optStr), ("last_name", .optStr), ("email", .optStr),
   ("phone", .optStr), ("agency_name", .optStr), ("agency_logo", .optStr),
   ("website", .optStr)]

/-- SectionVisibility model fields. -/
def sectionVisibilityFields : List (String × FKind) :=
  [("personal_info", .optBool), ("profile_statement", .optBool), ("skills", .optBool),
   ("experience", .optBool), ("education", .optBool), ("certifications", .optBool),
   ("achievements", .optBool), ("languages", .optBool),
   ("professional_memberships", .optBool), ("earlier_career", .optBool),
   ("publications", .optBool), ("additional_details", .optBool)]

/-- Scalar fields of CVData. -/
def cvDataScalarFields : List (String × FKind) :=
  [("first_name", .reqStr), ("surname", .reqStr), ("email", .optStr),
   ("phone", .optStr), ("address", .optStr), ("linkedin", .optStr),
   ("website", .optStr), ("profile_statement", .optStr),
   ("skills", .optListStr), ("additional_details", .optListStr)]

/-- Validation errors of the CVData model. -/
def cvDataErrors (es : JEntries) : List String :=
  modelErrors cvDataScalarFields es
  ++ (if optListModelOk experienceFields (lookup "experience" es) then [] else ["experience"])
  ++ (if optListModelOk educationFields (lookup "education" es) then [] else ["education"])
  ++ (if optListModelOk certificationFields (lookup "certifications" es) then [] else ["certifications"])
  ++ (if optListModelOk achievementFields (lookup "achievements" es) then [] else ["achievements"])
  ++ (if optListModelOk languageFields (lookup "languages" es) then [] else ["languages"])
  ++ (if optListModelOk membershipFields (lookup "professional_memberships" es) then [] else ["professional_memberships"])
  ++ (if optListModelOk earlierCareerFields (lookup "earlier_career" es) then [] else ["earlier_career"])
  ++ (if optListModelOk publicationFields (lookup "publications" es) then [] else ["publications"])

/-- The output_format field: Optional[str] with pattern doc or docx or pdf
(the regex is anchored at both ends, so it is exact membership in the
closed set). -/
def outputFormatOk : Option J → Bool
  | none => true
  | some .null => true
  | some (.str s) => s = "doc" || s = "docx" || s = "pdf"
  | _ => false

/-- Validation errors of CVGenerationRequest.model_validate on an
(already key-normalized) dict: one entry per violated field. -/
def cvRequestErrors (es : JEntries) : List String :=
  (if fieldOk .optStr (lookup "template" es) then [] else ["template"])
  ++ (if outputFormatOk (lookup "output_format" es) then [] else ["output_format"])
  ++ (if fieldOk .optListStr (lookup "section_order" es) then [] else ["section_order"])
  ++ (if optModelOk sectionVisibilityFields (lookup "section_visibility" es) then [] else ["section_visibility"])
  ++ (if fieldOk .optBool (lookup "is_anonymized" es) then [] else ["is_anonymized"])
  ++ (if optModelOk recruiterProfileFields (lookup "recruiter_profile" es) then [] else ["recruiter_profile"])
  ++ (match lookup "data" es with
      | some (.obj ds) => cvDataErrors ds
      | _ => ["data"])

/-- Validation.validate_request: normalize the keys, run the Pydantic model,
return True on success and False on a ValidationError; any other exception
(for example a non-dict request hitting .items()) is also caught and gives
False. -/
def validate_request (r : J) : Bool :=
  match r with
  | .obj es => (cvRequestErrors (transformEntries es .nil)).isEmpty
  | _ => false

/-- The dynamic type of the value validate_request returns: Python True or
False, or hypothetically a (bool, error list) tuple, which the spec claims
and the code never builds. -/
inductive PyRet where
  | bool (b : Bool)
  | tuple (ok : Bool) (errs : List String)

/-- validate_request as it returns to its caller: a bare Python bool. -/
def validate_request_ret (r : J) : PyRet :=
  .bool (validate_request r)

/-! ## FormatAdapter: utils/adapter.py (HireableCVAdapter) -/

/-- Python runtime errors the adapter and anonymizer can raise on malformed
input (attribute access on non-dicts, item assignment on immutables, and so
on). -/
inductive PyErr where
  | attributeError
  | typeError
  | indexError
  | keyError

/-- Build one output item of a list subsection: for each (src, dst, default)
produce dst: item.get(src, default), in field order. -/
def mapItem (fields : List (String × String × J)) (es : JEntries) : JEntries :=
  match fields with
  | [] => .nil
  | (src, dst, dflt) :: rest => .cons dst ((lookup src es).getD dflt) (mapItem rest es)

/-- The list comprehension over a subsection: every element must be a dict
(a non-dict element raises AttributeError on .get). -/
def mapItems (fields : List (String × String × J)) : JList → Except PyErr JList
  | .nil => .ok .nil
  | .cons (.obj es) tl => do
      let tl2 ← mapItems fields tl
      .ok (.cons (.obj (mapItem fields es)) tl2)
  | .cons _ _ => .error .attributeError

/-- Experience fields, parser to generator direction. -/
def expFieldsPG : List (String × String × J) :=
  [("title", "role", .str ""), ("company", "company", .str ""),
   ("start_date", "startDate", .str ""), ("end_date", "endDate", .str ""),
   ("is_current", "current", .bool false), ("description", "description", .str "")]

/-- Experience fields, generator to parser direction. -/
def expFieldsGP : List (String × String × J) :=
  [("role", "title", .str ""), ("company", "company", .str ""),
   ("startDate", "start_date", .str ""), ("endDate", "end_date", .str ""),
   ("current", "is_current", .bool false), ("description", "description", .str "")]

/-- Education fields, parser to generator direction. -/
def eduFieldsPG : List (String × String × J) :=
  [("institution", "institution", .str ""), ("degree", "degree", .str ""),
   ("start_date", "startDate", .str ""), ("end_date", "endDate", .str ""),
   ("grade", "grade", .str "")]

/-- Education fields, generator to parser direction. -/
def eduFieldsGP : List (String × String × J) :=
  [("institution", "institution", .str ""), ("degree", "degree", .str ""),
   ("startDate", "start_date", .str ""), ("endDate", "end_date", .str ""),
   ("grade", "grade", .str "")]

/-- Certification fields (the same key names in both directions). -/
def certItemFields : List (String × String × J) :=
  [("name", "name", .str ""), ("issuer", "issuer", .str ""),
   ("date", "date", .str ""), ("description", "description", .str "")]

/-- Language fields (the same key names in both directions). -/
def langItemFields : List (String × String × J) :=
  [("language", "language", .str ""), ("proficiency", "proficiency", .str "")]

/-- Achievement fields (the same key names in both directions). -/
def achItemFields : List (String × String × J) :=
  [("title", "title", .str ""), ("description", "description", .str ""),
   ("date", "date", .str "")]

/-- One iteration of the links loop of parser_to_generator: a string link
containing "linkedin" (case-insensitively) is assigned to the linkedin
field, otherwise one containing "github" or "gitlab" is assigned to the
website field; every other link is skipped. -/
def linkStep (d : JEntries) (link : J) : JEntries :=
  match link with
  | .str s =>
      if strContainsLower "linkedin" s then setKey "linkedin" (.str s) d
      else if strContainsLower "github" s || strContainsLower "gitlab" s then
        setKey "website" (.str s) d
      else d
  | _ => d

/-- The for-loop over links. -/
def linksFold : JList → JEntries → JEntries
  | .nil, d => d
  | .cons hd tl, d => linksFold tl (linkStep d hd)

/-- if key in src and isinstance(src[key], list): d[key] = src[key]. -/
def addVerbatimList (src : JEntries) (key : String) (d : JEntries) : JEntries :=
  match lookup key src with
  | some (.arr xs) => setKey key (.arr xs) d
  | _ => d

/-- if srcKey in src and isinstance(src[srcKey], list):
d[dstKey] = mapped items. -/
def addMappedList (src : JEntries) (srcKey dstKey : String)
    (fields : List (String × String × J)) (d : JEntries) : Except PyErr JEntries :=
  match lookup srcKey src with
  | some (.arr xs) => do
      let m ← mapItems fields xs
      .ok (setKey dstKey (.arr m) d)
  | _ => .ok d

/-- The base data dict of parser_to_generator: personal fields drawn from
the contact_info dict cs (empty-string defaults for the names, None defaults
for email, phone and location) plus the personal statement from the whole
parser record es. -/
def baseData (es cs : JEntries) : JEntries :=
  .cons "firstName" ((lookup "first_name" cs).getD (.str ""))
    (.cons "surname" ((lookup "last_name" cs).getD (.str ""))
      (.cons "email" ((lookup "email" cs).getD .null)
        (.cons "phone" ((lookup "phone" cs).getD .null)
          (.cons "address" ((lookup "location" cs).getD .null)
            (.cons "profileStatement" ((lookup "personal_statement" es).getD (.str ""))
              .nil)))))

/-- The links loop of parser_to_generator, guarded by
if "links" in parser_data and isinstance(parser_data["links"], list). -/
def linksApplied (es : JEntries) (d : JEntries) : JEntries :=
  match lookup "links" es with
  | some (.arr ls) => linksFold ls d
  | _ => d

/-- HireableCVAdapter.parser_to_generator.  A falsy or non-dict input gives
an empty dict; the five contact .get calls raise AttributeError exactly when
the contact_info value (default empty dict) is not a dict; links are folded
into linkedin/website; the list subsections are mapped field by field.
Assignments to result["data"] act on the single data dict built here. -/
def parser_to_generator (p : J) : Except PyErr J :=
  match p with
  | .obj (.cons k0 v0 tl0) =>
      let es := JEntries.cons k0 v0 tl0
      match (lookup "contact_info" es).getD (.obj .nil) with
      | .obj cs => do
          let d2 := addVerbatimList es "skills" (linksApplied es (baseData es cs))
          let d3 ← addMappedList es "experience" "experience" expFieldsPG d2
          let d4 ← addMappedList es "education" "education" eduFieldsPG d3
          let d5 ← addMappedList es "certifications" "certifications" certItemFields d4
          let d6 ← addMappedList es "languages" "languages" langItemFields d5
          let d7 ← addMappedList es "achievements" "achievements" achItemFields d6
          .ok (.obj (.cons "data" (.obj d7) .nil))
      | _ => .error .attributeError
  | _ => .ok (.obj .nil)

/-- The contact_info dict generator_to_parser builds from the data dict,
with empty-string defaults throughout. -/
def ciOf (ds : JEntries) : JEntries :=
  .cons "first_name" ((lookup "firstName" ds).getD (.str ""))
    (.cons "last_name" ((lookup "surname" ds).getD (.str ""))
      (.cons "email" ((lookup "email" ds).getD (.str ""))
        (.cons "phone" ((lookup "phone" ds).getD (.str ""))
          (.cons "location" ((lookup "address" ds).getD (.str "")) .nil))))

/-- The base parser record of generator_to_parser: contact_info plus
personal_statement. -/
def parserBase (ds : JEntries) : JEntries :=
  .cons "contact_info" (.obj (ciOf ds))
    (.cons "personal_statement" ((lookup "profileStatement" ds).getD (.str "")) .nil)

/-- The links array generator_to_parser builds: truthy linkedin then truthy
website are appended; none when both are skipped (then the links key is
omitted entirely). -/
def linksValue (ds : JEntries) : Option J :=
  let l1 := (lookup "linkedin" ds).getD .null
  let l2 := (lookup "website" ds).getD .null
  if jTruthy l1 then
    some (.arr (if jTruthy l2 then .cons l1 (.cons l2 .nil) else .cons l1 .nil))
  else if jTruthy l2 then some (.arr (.cons l2 .nil))
  else none

/-- The parser record after the links step of generator_to_parser: the links
key is set only when the links array is non-empty. -/
def linksR (ds : JEntries) : JEntries :=
  match linksValue ds with
  | some v => setKey "links" v (parserBase ds)
  | none => parserBase ds

/-- HireableCVAdapter.generator_to_parser.  A falsy or non-dict input gives
an empty dict; generator_data.get("data", default empty dict) must be a dict
(its .get calls raise otherwise); contact fields default to empty strings;
truthy linkedin and website values become the links array (omitted when
empty); list subsections map field by field. -/
def generatorToParser (g : J) : Except PyErr J :=
  match g with
  | .obj (.cons k0 v0 tl0) =>
      let ges := JEntries.cons k0 v0 tl0
      match (lookup "data" ges).getD (.obj .nil) with
      | .obj ds => do
          let r2 := addVerbatimList ds "skills" (linksR ds)
          let r3 ← addMappedList ds "experience" "experience" expFieldsGP r2
          let r4 ← addMappedList ds "education" "education" eduFieldsGP r3
          let r5 ← addMappedList ds "certifications" "certifications" certItemFields r4
          let r6 ← addMappedList ds "languages" "languages" langItemFields r5
          let r7 ← addMappedList ds "achievements" "achievements" achItemFields r6
          .ok (.obj r7)
      | _ => .error .attributeError
  | _ => .ok (.obj .nil)

/-- Read field k of the data object of a generator-format record. -/
def dataField (v : J) (k : String) : Option J :=
  match v with
  | .obj es =>
      match lookup "data" es with
      | some (.obj d) => lookup k d
      | _ => none
  | _ => none

/-! ## ContextPolicyEngine, value semantics: main.anonymize_cv_data.
Because anonymize_cv_data starts from copy.deepcopy(data), its input/output
behaviour is a pure function of the value; this section models that pure
function.  (The aliasing-sensitive frame property is handled separately with
an explicit heap model below.) -/

/-- Membership x in v of a string: key test on dicts, substring test on
strings (case sensitive), element equality on lists; TypeError otherwise. -/
def pyContainsV (v : J) (needle : String) : Except PyErr Bool :=
  match v with
  | .obj es => .ok (hasKey needle es)
  | .str s => .ok (charsInfix needle.toList s.toList)
  | .arr xs => .ok (jlistHasStr xs needle)
  | _ => .error .typeError
where
  jlistHasStr : JList → String → Bool
    | .nil, _ => false
    | .cons (.str s) tl, n => s = n || jlistHasStr tl n
    | .cons _ tl, n => jlistHasStr tl n

/-- Subscription v[k] with a string key: KeyError on a missing dict key,
TypeError on non-dicts. -/
def pyGetItem (v : J) (k : String) : Except PyErr J :=
  match v with
  | .obj es =>
      match lookup k es with
      | some x => .ok x
      | none => .error .keyError
  | _ => .error .typeError

/-- Item assignment v[k] = x: only dicts support it here (strings and the
other scalars raise). -/
def pySetItemV (v : J) (k : String) (x : J) : Except PyErr J :=
  match v with
  | .obj es => .ok (.obj (setKey k x es))
  | _ => .error .typeError

/-- Subscription v[0]: first character of a string (as a string), first
element of a list; IndexError when empty, TypeError otherwise. -/
def pyIndex0 (v : J) : Except PyErr J :=
  match v with
  | .str s =>
      match s.toList with
      | c :: _ => .ok (.str (String.mk [c]))
      | [] => .error .indexError
  | .arr (.cons hd _) => .ok hd
  | .arr .nil => .error .indexError
  | _ => .error .typeError

/-- f-string rendering of a scalar value.  The repr of container values is
not modelled; contexts that would format a container fail here instead. -/
def pyFStr (v : J) : Except PyErr String :=
  match v with
  | .str s => .ok s
  | .int n => .ok (toString n)
  | .bool true => .ok "True"
  | .bool false => .ok "False"
  | .null => .ok "None"
  | _ => .error .typeError

/-- The name-initials block of anonymize_cv_data: only when both firstName
and surname keys are present, each is replaced by its first character (or
the A/B placeholder when falsy) followed by a dot. -/
def anonNames (pd0 : J) : Except PyErr J := do
  let c1 ← pyContainsV pd0 "firstName"
  let c2 ← pyContainsV pd0 "surname"
  if c1 && c2 then do
    let fv ← pyGetItem pd0 "firstName"
    let fi ← if jTruthy fv then pyIndex0 fv else .ok (.str "A")
    let sv ← pyGetItem pd0 "surname"
    let si ← if jTruthy sv then pyIndex0 sv else .ok (.str "B")
    let fs ← pyFStr fi
    let ss ← pyFStr si
    let x1 ← pySetItemV pd0 "firstName" (.str (fs ++ "."))
    pySetItemV x1 "surname" (.str (ss ++ "."))
  else .ok pd0

/-- One contact-field block of anonymize_cv_data:
if key in personal_data: personal_data[key] = literal. -/
def anonContact (key lit : String) (pd : J) : Except PyErr J := do
  let c ← pyContainsV pd key
  if c then pySetItemV pd key (.str lit) else .ok pd

/-- main.anonymize_cv_data as a value-level function.  The deep copy makes
the result a pure function of the input value: if a data member is present,
first name and surname are replaced by initials only when both keys are
present, and each contact field is replaced by its fixed literal when
present. -/
def anonymize_cv_data (data : J) : Except PyErr J := do
  let c ← pyContainsV data "data"
  if c then do
    let pd0 ← pyGetItem data "data"
    let pd1 ← anonNames pd0
    let pd2 ← anonContact "email" "candidate@example.com" pd1
    let pd3 ← anonContact "phone" "+44 XXX XXX XXXX" pd2
    let pd4 ← anonContact "address" "United Kingdom" pd3
    let pd5 ← anonContact "linkedin" "linkedin.com/in/candidate" pd4
    pySetItemV data "data" pd5
  else
    .ok data

/-! ## Heap model for the frame property of prepare_template_context.
Python objects live in a heap indexed by addresses; scalars are carried
inline, dicts and lists by reference.  copy.deepcopy allocates fresh
addresses, dict.copy() allocates one fresh dict sharing the field values,
and item assignment mutates the heap cell in place.  The frame theorem shows
every write lands at an address allocated during the call, so the value
readable from the original record is untouched. -/

/-- A heap value: a scalar, or a reference to a container. -/
inductive HVal where
  | str (s : String)
  | int (n : Int)
  | bool (b : Bool)
  | null
  | ref (a : Nat)
deriving DecidableEq

/-- A heap object: a dict (fields in insertion order) or a list. -/
inductive HObj where
  | dict (fs : List (String × HVal))
  | arr (xs : List HVal)

/-- The heap plus its allocation frontier: every address at or above next is
unallocated. -/
structure HState where
  heap : Nat → Option HObj
  next : Nat

/-- Allocate a fresh object, returning the new state and its address. -/
def alloc (st : HState) (o : HObj) : HState × Nat :=
  (⟨fun b => if b = st.next then some o else st.heap b, st.next + 1⟩, st.next)

/-- Lookup in a field list. -/
def fieldsLookup (k : String) : List (String × HVal) → Option HVal
  | [] => none
  | (k1, v) :: tl => if k1 = k then some v else fieldsLookup k tl

/-- Dict assignment on a field list: overwrite in place or append. -/
def fieldsSet (k : String) (v : HVal) : List (String × HVal) → List (String × HVal)
  | [] => [(k, v)]
  | (k1, v1) :: tl => if k1 = k then (k, v) :: tl else (k1, v1) :: fieldsSet k v tl

/-- In-place item assignment on the dict at address a. -/
def hSetItem (st : HState) (a : Nat) (k : String) (v : HVal) : Option HState :=
  match st.heap a with
  | some (.dict fs) =>
      some ⟨fun b => if b = a then some (.dict (fieldsSet k v fs)) else st.heap b, st.next⟩
  | _ => none

/-- Item assignment through a value: only references to dicts support it. -/
def hSetItemV (st : HState) (v : HVal) (k : String) (x : HVal) : Option HState :=
  match v with
  | .ref a => hSetItem st a k x
  | _ => none

/-- Python truthiness; dereferences containers to test emptiness. -/
def hTruthy (st : HState) (v : HVal) : Option Bool :=
  match v with
  | .str s => some (!(s = ""))
  | .int n => some (!(n = 0))
  | .bool b => some b
  | .null => some false
  | .ref a =>
      match st.heap a with
      | some (.dict fs) => some (!fs.isEmpty)
      | some (.arr xs) => some (!xs.isEmpty)
      | none => none

/-- Membership needle in v in the heap. -/
def hContains (st : HState) (v : HVal) (needle : String) : Option Bool :=
  match v with
  | .str s => some (charsInfix needle.toList s.toList)
  | .ref a =>
      match st.heap a with
      | some (.dict fs) => some ((fieldsLookup needle fs).isSome)
      | some (.arr xs) => some (xs.contains (.str needle))
      | none => none
  | _ => none

/-- Subscription v[k]: dict field access through a reference. -/
def hGetItem (st : HState) (v : HVal) (k : String) : Option HVal :=
  match v with
  | .ref a =>
      match st.heap a with
      | some (.dict fs) => fieldsLookup k fs
      | _ => none
  | _ => none

/-- Subscription v[0] in the heap. -/
def hIndex0 (st : HState) (v : HVal) : Option HVal :=
  match v with
  | .str s =>
      match s.toList with
      | c :: _ => some (.str (String.mk [c]))
      | [] => none
  | .ref a =>
      match st.heap a with
      | some (.arr (x :: _)) => some x
      | _ => none
  | _ => none

/-- f-string rendering of a scalar heap value (container repr unmodelled,
as in pyFStr). -/
def hFStr (v : HVal) : Option String :=
  match v with
  | .str s => some s
  | .int n => some (toString n)
  | .bool true => some "True"
  | .bool false => some "False"
  | .null => some "None"
  | .ref _ => none

mutual

/-- copy.deepcopy of a heap value, with fuel for the recursion depth.  The
memo dictionary of Python deepcopy is not modelled: shared acyclic
substructure is duplicated rather than kept shared, and cyclic structures
exhaust the fuel; neither affects which pre-existing addresses are
written (none). -/
def deepcopyVal : Nat → HState → HVal → Option (HState × HVal)
  | 0, _, _ => none
  | fuel + 1, st, v =>
      match v with
      | .ref a =>
          match st.heap a with
          | some o =>
              match deepcopyObj fuel st o with
              | some (st1, o1) =>
                  let p := alloc st1 o1
                  some (p.1, .ref p.2)
              | none => none
          | none => none
      | x => some (st, x)
termination_by structural fuel _ _ => fuel

/-- Deep copy of one container. -/
def deepcopyObj : Nat → HState → HObj → Option (HState × HObj)
  | 0, _, _ => none
  | fuel + 1, st, .dict fs =>
      match deepcopyFields fuel st fs with
      | some (st1, fs1) => some (st1, .dict fs1)
      | none => none
  | fuel + 1, st, .arr xs =>
      match deepcopyElems fuel st xs with
      | some (st1, xs1) => some (st1, .arr xs1)
      | none => none
termination_by structural fuel _ _ => fuel

/-- Deep copy of dict fields in order. -/
def deepcopyFields : Nat → HState → List (String × HVal) → Option (HState × List (String × HVal))
  | 0, _, _ => none
  | _ + 1, st, [] => some (st, [])
  | fuel + 1, st, (k, v) :: tl =>
      match deepcopyVal fuel st v with
      | some (st1, v1) =>
          match deepcopyFields fuel st1 tl with
          | some (st2, tl2) => some (st2, (k, v1) :: tl2)
          | none => none
      | none => none
termination_by structural fuel _ _ => fuel

/-- Deep copy of list elements in order. -/
def deepcopyElems : Nat → HState → List HVal → Option (HState × List HVal)
  | 0, _, _ => none
  | _ + 1, st, [] => some (st, [])
  | fuel + 1, st, v :: tl =>
      match deepcopyVal fuel st v with
      | some (st1, v1) =>
          match deepcopyElems fuel st1 tl with
          | some (st2, tl2) => some (st2, v1 :: tl2)
          | none => none
      | none => none
termination_by structural fuel _ _ => fuel

end

mutual

/-- Read the value tree reachable from a heap value, with fuel. -/
def readVal : Nat → HState → HVal → Option J
  | 0, _, _ => none
  | fuel + 1, st, v =>
      match v with
      | .str s => some (.str s)
      | .int n => some (.int n)
      | .bool b => some (.bool b)
      | .null => some .null
      | .ref a =>
          match st.heap a with
          | some o => readObj fuel st o
          | none => none
termination_by structural fuel _ _ => fuel

/-- Read one container as a value tree. -/
def readObj : Nat → HState → HObj → Option J
  | 0, _, _ => none
  | fuel + 1, st, .dict fs =>
      match readFields fuel st fs with
      | some es => some (.obj es)
      | none => none
  | fuel + 1, st, .arr xs =>
      match readElems fuel st xs with
      | some l => some (.arr l)
      | none => none
termination_by structural fuel _ _ => fuel

/-- Read dict fields as entries. -/
def readFields : Nat → HState → List (String × HVal) → Option JEntries
  | 0, _, _ => none
  | _ + 1, _, [] => some .nil
  | fuel + 1, st, (k, v) :: tl =>
      match readVal fuel st v, readFields fuel st tl with
      | some j, some rest => some (.cons k j rest)
      | _, _ => none
termination_by structural fuel _ _ => fuel

/-- Read list elements as a JList. -/
def readElems : Nat → HState → List HVal → Option JList
  | 0, _, _ => none
  | _ + 1, _, [] => some .nil
  | fuel + 1, st, v :: tl =>
      match readVal fuel st v, readElems fuel st tl with
      | some j, some rest => some (.cons j rest)
      | _, _ => none
termination_by structural fuel _ _ => fuel

end

/-- The two name-overwriting assignments of anonymize_cv_data over the
heap: personal_data["firstName"] and personal_data["surname"] receive the
rendered initials. -/
def anonSetNames (st : HState) (pd i1 i2 : HVal) : Option HState := do
  let fs ← hFStr i1
  let ss ← hFStr i2
  let sta ← hSetItemV st pd "firstName" (.str (fs ++ "."))
  hSetItemV sta pd "surname" (.str (ss ++ "."))

/-- The name-initials block of anonymize_cv_data over the heap. -/
def anonNamesH (st : HState) (pd : HVal) : Option HState := do
  let c1 ← hContains st pd "firstName"
  let c2 ← hContains st pd "surname"
  if c1 && c2 then do
    let fv ← hGetItem st pd "firstName"
    let tf ← hTruthy st fv
    let fi ← if tf then hIndex0 st fv else some (.str "A")
    let sv ← hGetItem st pd "surname"
    let ts ← hTruthy st sv
    let si ← if ts then hIndex0 st sv else some (.str "B")
    anonSetNames st pd fi si
  else some st

/-- One contact-field block of anonymize_cv_data over the heap. -/
def anonContactH (key lit : String) (st : HState) (pd : HVal) : Option HState := do
  let c ← hContains st pd key
  if c then hSetItemV st pd key (.str lit) else some st

/-- main.anonymize_cv_data over the heap: deep-copy the argument, then
mutate only the copy. -/
def anonymizeH (fuel : Nat) (st : HState) (data : HVal) : Option (HState × HVal) := do
  let (st1, anon) ← deepcopyVal fuel st data
  let c ← hContains st1 anon "data"
  if c then do
    let pd ← hGetItem st1 anon "data"
    let st2 ← anonNamesH st1 pd
    let st3 ← anonContactH "email" "candidate@example.com" st2 pd
    let st4 ← anonContactH "phone" "+44 XXX XXX XXXX" st3 pd
    let st5 ← anonContactH "address" "United Kingdom" st4 pd
    let st6 ← anonContactH "linkedin" "linkedin.com/in/candidate" st5 pd
    let st7 ← hSetItemV st6 anon "data" pd
    some (st7, anon)
  else
    some (st1, anon)

/-- The fields of the dict at address a, as dict(request_body) reads them. -/
def reqFields (st : HState) (a : Nat) : Option (List (String × HVal)) :=
  match st.heap a with
  | some (.dict fs) => some fs
  | _ => none

/-- One conditional item assignment of prepare_template_context
(if section_order: context["sectionOrder"] = section_order, and its
sectionVisibility twin). -/
def setIf (b : Bool) (st : HState) (ctx : HVal) (k : String) (x : HVal) :
    Option HState :=
  if b then hSetItemV st ctx k x else some st

/-- The conditional anonymization step: when the flag is truthy the
context is rebound to the anonymized deep copy, otherwise it is kept. -/
def anonIf (fuel : Nat) (b : Bool) (st : HState) (ctx : HVal) :
    Option (HState × HVal) :=
  if b then anonymizeH fuel st ctx else some (st, ctx)

/-- The conditional recruiterProfile copy from the original request body
into the context. -/
def copyRecruiterIf (b : Bool) (st : HState) (rb : Nat) (ctx2 : HVal) :
    Option HState :=
  if b then do
    let v ← hGetItem st (.ref rb) "recruiterProfile"
    hSetItemV st ctx2 "recruiterProfile" v
  else some st

/-- The tail of prepare_template_context once the shallow copy of the
request body sits at address ctxa: set sectionOrder and sectionVisibility
when truthy, anonymize when requested (rebinding the context to the fresh
deep copy), then copy recruiterProfile from the original request body. -/
def prepareFromCopy (fuel : Nat) (st1 : HState) (ctxa reqBody : Nat)
    (so sv anonFlag : HVal) : Option (HState × HVal) := do
  let tso ← hTruthy st1 so
  let st2 ← setIf tso st1 (.ref ctxa) "sectionOrder" so
  let tsv ← hTruthy st2 sv
  let st3 ← setIf tsv st2 (.ref ctxa) "sectionVisibility" sv
  let tan ← hTruthy st3 anonFlag
  let (st4, ctx2) ← anonIf fuel tan st3 (.ref ctxa)
  let c ← hContains st4 (.ref reqBody) "recruiterProfile"
  let st5 ← copyRecruiterIf c st4 reqBody ctx2
  some (st5, ctx2)

/-- main.prepare_template_context over the heap: allocate a shallow copy
of the request body (context = dict(request_body)), then run the rest of
the function on it. -/
def prepareTemplateContextH (fuel : Nat) (st : HState) (reqBody : Nat)
    (so sv anonFlag : HVal) : Option (HState × HVal) := do
  let fs ← reqFields st reqBody
  prepareFromCopy fuel (alloc st (.dict fs)).1 (alloc st (.dict fs)).2 reqBody
    so sv anonFlag

/-! ## Dict-operation lemmas -/

/-- Appending entry lists. -/
def eappend : JEntries → JEntries → JEntries
  | .nil, bs => bs
  | .cons k v tl, bs => .cons k v (eappend tl bs)

theorem eappend_nil : (a : JEntries) → eappend a .nil = a
  | .nil => rfl
  | .cons k v tl => by simp [eappend, eappend_nil tl]

theorem eappend_assoc : (a b c : JEntries) →
    eappend (eappend a b) c = eappend a (eappend b c)
  | .nil, _, _ => rfl
  | .cons k v tl, b, c => by simp [eappend, eappend_assoc tl b c]

theorem lookup_eappend (k : String) : (a b : JEntries) →
    lookup k (eappend a b) = ((lookup k a).rec (lookup k b) fun v => some v)
  | .nil, b => rfl
  | .cons k1 v tl, b => by
      by_cases h : k1 = k <;> simp [eappend, lookup, h, lookup_eappend k tl b]

theorem hasKey_eappend (k : String) : (a b : JEntries) →
    hasKey k (eappend a b) = (hasKey k a || hasKey k b)
  | .nil, b => rfl
  | .cons k1 v tl, b => by
      by_cases h : k1 = k <;> simp [eappend, hasKey, h, hasKey_eappend k tl b]

theorem lookup_setKey (k k1 : String) (v : J) : (es : JEntries) →
    lookup k (setKey k1 v es) = if k1 = k then some v else lookup k es
  | .nil => by by_cases h : k1 = k <;> simp [setKey, lookup, h]
  | .cons k2 v2 tl => by
      by_cases h2 : k2 = k1
      · subst h2
        by_cases h : k2 = k <;> simp [setKey, lookup, h]
      · by_cases h : k2 = k
        · subst h
          have h1 : ¬ k1 = k2 := fun hh => h2 hh.symm
          simp [setKey, h2, lookup, h1]
        · simp [setKey, h2, lookup, h, lookup_setKey k k1 v tl]

theorem hasKey_false_lookup : (es : JEntries) → hasKey k es = false → lookup k es = none
  | .nil, _ => rfl
  | .cons k1 v tl, h => by
      by_cases h1 : k1 = k
      · simp [hasKey, h1] at h
      · simp [hasKey, h1] at h
        simp [lookup, h1, hasKey_false_lookup tl h]

theorem setKey_of_hasKey_false (k : String) (v : J) : (es : JEntries) →
    hasKey k es = false → setKey k v es = eappend es (.cons k v .nil)
  | .nil, _ => rfl
  | .cons k1 v1 tl, h => by
      by_cases h1 : k1 = k
      · simp [hasKey, h1] at h
      · simp [hasKey, h1] at h
        simp [setKey, h1, eappend, setKey_of_hasKey_false k v tl h]

theorem keysOf_eappend : (a b : JEntries) → keysOf (eappend a b) = keysOf a ++ keysOf b
  | .nil, _ => rfl
  | .cons k v tl, b => by simp [eappend, keysOf, keysOf_eappend tl b]

theorem hasKey_iff_mem_keysOf (k : String) : (es : JEntries) →
    (hasKey k es = true ↔ k ∈ keysOf es)
  | .nil => by simp [hasKey, keysOf]
  | .cons k1 v tl => by
      by_cases h1 : k1 = k
      · subst h1
        simp [hasKey, keysOf]
      · have h2 : ¬ k = k1 := fun hh => h1 hh.symm
        simp [hasKey, keysOf, h1, h2, hasKey_iff_mem_keysOf k tl]

theorem keysOf_setKey (k : String) (v : J) : (es : JEntries) →
    keysOf (setKey k v es) = if hasKey k es then keysOf es else keysOf es ++ [k]
  | .nil => by simp [setKey, keysOf, hasKey]
  | .cons k1 v1 tl => by
      by_cases h1 : k1 = k
      · simp [setKey, keysOf, hasKey, h1]
      · simp [setKey, keysOf, hasKey, h1, keysOf_setKey k v tl]
        by_cases h2 : hasKey k tl <;> simp [h2]

/-! ## KeyNormalizer: idempotence -/

/-- Every key of the table image is a fixed point of the table. -/
theorem keyMapping_unmapped (k : String)
    (h1 : k ≠ "outputFormat") (h2 : k ≠ "sectionOrder") (h3 : k ≠ "sectionVisibility")
    (h4 : k ≠ "isAnonymized") (h5 : k ≠ "recruiterProfile") (h6 : k ≠ "firstName")
    (h7 : k ≠ "lastName") (h8 : k ≠ "profileStatement") (h9 : k ≠ "endDate")
    (h10 : k ≠ "startDate") (h11 : k ≠ "additionalDetails")
    (h12 : k ≠ "professionalMemberships") (h13 : k ≠ "earlierCareer") :
    keyMapping k = k := by
  simp [keyMapping, h1, h2, h3, h4, h5, h6, h7, h8, h9, h10, h11, h12, h13]

theorem keyMapping_keyMapping (k : String) : keyMapping (keyMapping k) = keyMapping k := by
  by_cases h1 : k = "outputFormat"
  · subst h1; rfl
  by_cases h2 : k = "sectionOrder"
  · subst h2; rfl
  by_cases h3 : k = "sectionVisibility"
  · subst h3; rfl
  by_cases h4 : k = "isAnonymized"
  · subst h4; rfl
  by_cases h5 : k = "recruiterProfile"
  · subst h5; rfl
  by_cases h6 : k = "firstName"
  · subst h6; rfl
  by_cases h7 : k = "lastName"
  · subst h7; rfl
  by_cases h8 : k = "profileStatement"
  · subst h8; rfl
  by_cases h9 : k = "endDate"
  · subst h9; rfl
  by_cases h10 : k = "startDate"
  · subst h10; rfl
  by_cases h11 : k = "additionalDetails"
  · subst h11; rfl
  by_cases h12 : k = "professionalMemberships"
  · subst h12; rfl
  by_cases h13 : k = "earlierCareer"
  · subst h13; rfl
  rw [keyMapping_unmapped k h1 h2 h3 h4 h5 h6 h7 h8 h9 h10 h11 h12 h13]
  exact keyMapping_unmapped k h1 h2 h3 h4 h5 h6 h7 h8 h9 h10 h11 h12 h13

/-- A dict whose keys and values the normalizer leaves unchanged. -/
def entriesFixed : JEntries → Prop
  | .nil => True
  | .cons k v tl => keyMapping k = k ∧ transformValue v = v ∧ entriesFixed tl

theorem entriesFixed_eappend : (a b : JEntries) → entriesFixed a → entriesFixed b →
    entriesFixed (eappend a b)
  | .nil, _, _, hb => hb
  | .cons k v tl, b, ha, hb =>
      ⟨ha.1, ha.2.1, entriesFixed_eappend tl b ha.2.2 hb⟩

theorem entriesFixed_setKey (k : String) (v : J) : (es : JEntries) →
    keyMapping k = k → transformValue v = v → entriesFixed es →
    entriesFixed (setKey k v es)
  | .nil, hk, hv, _ => ⟨hk, hv, trivial⟩
  | .cons k1 v1 tl, hk, hv, he => by
      by_cases h1 : k1 = k
      · exact by simpa [setKey, h1] using (⟨hk, hv, he.2.2⟩ : entriesFixed (.cons k v tl))
      · exact by
          simpa [setKey, h1] using
            (⟨he.1, he.2.1, entriesFixed_setKey k v tl hk hv he.2.2⟩ :
              entriesFixed (.cons k1 v1 (setKey k v tl)))

theorem nodup_keysOf_setKey (k : String) (v : J) (es : JEntries)
    (h : (keysOf es).Nodup) : (keysOf (setKey k v es)).Nodup := by
  by_cases hk : hasKey k es = true
  · simp [keysOf_setKey, hk, h]
  · have hk2 : hasKey k es = false := by
      revert hk
      cases hasKey k es <;> simp
    have hnot : k ∉ keysOf es := by
      intro hm
      rw [(hasKey_iff_mem_keysOf k es).2 hm] at hk2
      cases hk2
    rw [keysOf_setKey, hk2]
    simp only [Bool.false_eq_true, if_false]
    rw [List.nodup_append]
    refine ⟨h, List.nodup_singleton k, ?_⟩
    intro a ha hb
    simp at hb
    subst hb
    exact hnot ha

/-- On an already-fixed dict with unique keys, none of which collide with
the accumulator, the normalizer fold is a plain append. -/
theorem transformEntries_fixed_eq : (es : JEntries) → (acc : JEntries) →
    entriesFixed es → (keysOf es).Nodup →
    (∀ k, k ∈ keysOf es → hasKey k acc = false) →
    transformEntries es acc = eappend acc es
  | .nil, acc, _, _, _ => by simp [transformEntries, eappend_nil]
  | .cons k v tl, acc, hf, hd, hdisj => by
      have hk : keyMapping k = k := hf.1
      have hv : transformValue v = v := hf.2.1
      have hacc : hasKey k acc = false := hdisj k (by simp [keysOf])
      have hknotl : k ∉ keysOf tl := by
        have := hd
        simp [keysOf] at this
        exact this.1
      have step : setKey k v acc = eappend acc (.cons k v .nil) :=
        setKey_of_hasKey_false k v acc hacc
      have rec1 : transformEntries tl (eappend acc (.cons k v .nil)) =
          eappend (eappend acc (.cons k v .nil)) tl := by
        refine transformEntries_fixed_eq tl _ hf.2.2 ?_ ?_
        · have := hd
          simp [keysOf] at this
          exact this.2
        · intro k1 hk1
          rw [hasKey_eappend]
          have h1 : hasKey k1 acc = false := hdisj k1 (by simp [keysOf, hk1])
          have h2 : ¬ k1 = k := fun hh => hknotl (hh ▸ hk1)
          have h3 : k ≠ k1 := fun hh => h2 hh.symm
          simp [h1, hasKey, h3]
      calc transformEntries (.cons k v tl) acc
          = transformEntries tl (setKey k v acc) := by simp [transformEntries, hk, hv]
        _ = eappend (eappend acc (.cons k v .nil)) tl := by rw [step, rec1]
        _ = eappend acc (.cons k v tl) := by rw [eappend_assoc]; rfl

theorem allObjs_transformList : (xs : JList) → allObjs xs = true →
    allObjs (transformList xs) = true
  | .nil, _ => rfl
  | .cons hd tl, h => by
      have h2 := h
      simp [allObjs] at h2
      cases hd with
      | obj es => simp [transformList, transformItem, allObjs, isObj,
          allObjs_transformList tl h2.2]
      | str s => simp [isObj] at h2
      | int n => simp [isObj] at h2
      | bool b => simp [isObj] at h2
      | null => simp [isObj] at h2
      | arr a => simp [isObj] at h2

mutual

theorem transformValue_transformValue : (v : J) →
    transformValue (transformValue v) = transformValue v
  | .str _ => rfl
  | .int _ => rfl
  | .bool _ => rfl
  | .null => rfl
  | .obj es => by
      simp only [transformValue]
      rw [transformEntries_transformEntries es]
  | .arr xs => by
      by_cases h : allObjs xs = true
      · simp only [transformValue, h, if_true]
        simp only [transformValue, allObjs_transformList xs h, if_true]
        rw [transformList_transformList xs h]
      · have h2 : allObjs xs = false := by
          revert h
          cases allObjs xs <;> simp
        simp [transformValue, h2]
termination_by v => (sizeOf v, 2)

theorem transformList_transformList : (xs : JList) → allObjs xs = true →
    transformList (transformList xs) = transformList xs
  | .nil, _ => rfl
  | .cons hd tl, h => by
      have hh : isObj hd = true ∧ allObjs tl = true := by simpa [allObjs] using h
      cases hd with
      | obj es =>
          simp only [transformList, transformItem]
          rw [transformEntries_transformEntries es, transformList_transformList tl hh.2]
      | str s => simp [isObj] at hh
      | int n => simp [isObj] at hh
      | bool b => simp [isObj] at hh
      | null => simp [isObj] at hh
      | arr a => simp [isObj] at hh
termination_by xs _ => (sizeOf xs, 1)

/-- Normalizing a dict twice is the same as normalizing it once. -/
theorem transformEntries_transformEntries : (es : JEntries) →
    transformEntries (transformEntries es .nil) .nil = transformEntries es .nil
  | es =>
      transformEntries_fixed_eq (transformEntries es .nil) .nil
        (transformEntries_fixedOut es .nil trivial)
        (transformEntries_nodupOut es .nil (by simp [keysOf]))
        (fun k _ => rfl)
termination_by es => (sizeOf es, 1)

theorem transformEntries_fixedOut : (es : JEntries) → (acc : JEntries) →
    entriesFixed acc → entriesFixed (transformEntries es acc)
  | .nil, acc, ha => by simpa [transformEntries] using ha
  | .cons k v tl, acc, ha => by
      simp only [transformEntries]
      exact transformEntries_fixedOut tl _
        (entriesFixed_setKey (keyMapping k) (transformValue v) acc
          (keyMapping_keyMapping k) (transformValue_transformValue v) ha)
termination_by es _ _ => (sizeOf es, 0)

theorem transformEntries_nodupOut : (es : JEntries) → (acc : JEntries) →
    (keysOf acc).Nodup → (keysOf (transformEntries es acc)).Nodup
  | .nil, acc, ha => by simpa [transformEntries] using ha
  | .cons k v tl, acc, ha => by
      simp only [transformEntries]
      exact transformEntries_nodupOut tl _ (nodup_keysOf_setKey _ _ _ ha)
termination_by es _ _ => (sizeOf es, 0)

end

/-! ## Claim theorems: KeyNormalizer -/

/-- Claim C5: key normalization is idempotent: for every nested JSON-like
structure of mappings, sequences and scalars, normalizing twice equals
normalizing once — both for a dict (the shape _transform_request_keys is
called on) and for any nested value. -/
theorem C5_normalize_idempotent (es : JEntries) (v : J) :
    transformEntries (transformEntries es .nil) .nil = transformEntries es .nil ∧
    transformValue (transformValue v) = transformValue v :=
  ⟨transformEntries_transformEntries es, transformValue_transformValue v⟩

/-- Claim C9: key normalization recurses into a sequence only when every
element is a mapping: a mapping value that is a sequence holding at least
one non-mapping element alongside mapping elements passes through entirely
unmodified (keys of its mapping elements included). -/
theorem C9_mixed_sequence_unmodified (k : String) (xs : JList)
    (hsomeobj : anyObjs xs = true) (hnotall : allObjs xs = false) :
    transformValue (.arr xs) = .arr xs ∧
    transformEntries (.cons k (.arr xs) .nil) .nil =
      .cons (keyMapping k) (.arr xs) .nil := by
  have hval : transformValue (.arr xs) = .arr xs := by
    simp [transformValue, hnotall]
  exact ⟨hval, by simp [transformEntries, hval, setKey]⟩

/-- Witness for C9 at the concrete mixed list
[dict with a startDate key, scalar string]: the dict element keeps its
camelCase key. -/
theorem C9_mixed_sequence_unmodified_witness :
    anyObjs (.cons (.obj (.cons "startDate" (.str "2020-01") .nil))
      (.cons (.str "plain") .nil)) = true ∧
    allObjs (.cons (.obj (.cons "startDate" (.str "2020-01") .nil))
      (.cons (.str "plain") .nil)) = false ∧
    transformValue (.arr (.cons (.obj (.cons "startDate" (.str "2020-01") .nil))
      (.cons (.str "plain") .nil))) =
      .arr (.cons (.obj (.cons "startDate" (.str "2020-01") .nil))
        (.cons (.str "plain") .nil)) :=
  ⟨rfl, rfl,
    (C9_mixed_sequence_unmodified "experience"
      (.cons (.obj (.cons "startDate" (.str "2020-01") .nil))
        (.cons (.str "plain") .nil)) rfl rfl).1⟩

/-! ## Claim theorems: SchemaValidator -/

/-- Claim C6 counterexample: the claim says a record where first_name is
present but empty is rejected; the code accepts it, because the Pydantic
str fields carry no non-emptiness constraint. -/
theorem C6_counterexample :
    validate_request (.obj (.cons "data" (.obj (.cons "firstName" (.str "")
      (.cons "surname" (.str "Doe") .nil))) .nil)) = true := by
  rfl

/-- Claim C6 amended: validation requires a data object with first_name and
surname present as strings: missing surname is rejected and both present are
accepted, for every pair of string values — including empty strings, which
are not rejected. -/
theorem C6_required_names (fn sn : String) :
    validate_request (.obj (.cons "data" (.obj (.cons "firstName" (.str fn)
      (.cons "surname" (.str sn) .nil))) .nil)) = true ∧
    validate_request (.obj (.cons "data" (.obj (.cons "firstName" (.str fn) .nil))
      .nil)) = false := by
  exact ⟨rfl, rfl⟩

/-- Claim C8: when the normalized record carries a supplied (non-null)
output_format value, validation succeeds only if that value is one of
exactly doc, docx, pdf; no other value is coerced into the set. -/
theorem C8_output_format_closed (es : JEntries) (v : J)
    (hv : lookup "output_format" (transformEntries es .nil) = some v)
    (hnn : v ≠ .null)
    (hok : validate_request (.obj es) = true) :
    v = .str "doc" ∨ v = .str "docx" ∨ v = .str "pdf" := by
  have hnil : cvRequestErrors (transformEntries es .nil) = [] := by
    simpa [validate_request, List.isEmpty_iff] using hok
  rw [cvRequestErrors] at hnil
  simp only [List.append_eq_nil] at hnil
  obtain ⟨⟨⟨⟨⟨⟨hA, hB⟩, hC⟩, hD⟩, hE⟩, hF⟩, hG⟩ := hnil
  have hofnil : (if outputFormatOk (lookup "output_format" (transformEntries es .nil))
      then ([] : List String) else ["output_format"]) = [] := hB
  rw [hv] at hofnil
  by_cases hc : outputFormatOk (some v) = true
  · cases v with
    | str s =>
        have hs : (s = "doc" ∨ s = "docx") ∨ s = "pdf" := by
          simpa [outputFormatOk] using hc
        rcases hs with (h | h) | h
        · exact Or.inl (by rw [h])
        · exact Or.inr (Or.inl (by rw [h]))
        · exact Or.inr (Or.inr (by rw [h]))
    | null => exact absurd rfl hnn
    | int n => simp [outputFormatOk] at hc
    | bool b => simp [outputFormatOk] at hc
    | arr xs => simp [outputFormatOk] at hc
    | obj es2 => simp [outputFormatOk] at hc
  · rw [if_neg hc] at hofnil
    cases hofnil

/-- Witness for C8: the record with outputFormat pdf and minimal data
validates, and the theorem places pdf in the closed set. -/
theorem C8_output_format_closed_witness :
    lookup "output_format" (transformEntries (.cons "outputFormat" (.str "pdf")
      (.cons "data" (.obj (.cons "firstName" (.str "Jo")
        (.cons "surname" (.str "Doe") .nil))) .nil)) .nil) = some (.str "pdf") ∧
    validate_request (.obj (.cons "outputFormat" (.str "pdf")
      (.cons "data" (.obj (.cons "firstName" (.str "Jo")
        (.cons "surname" (.str "Doe") .nil))) .nil))) = true ∧
    ((.str "pdf" : J) = .str "doc" ∨ (.str "pdf" : J) = .str "docx" ∨
      (.str "pdf" : J) = .str "pdf") :=
  ⟨rfl, rfl,
    C8_output_format_closed
      (.cons "outputFormat" (.str "pdf")
        (.cons "data" (.obj (.cons "firstName" (.str "Jo")
          (.cons "surname" (.str "Doe") .nil))) .nil))
      (.str "pdf") rfl (fun h => J.noConfusion h) rfl⟩

/-- Claim C4 counterexample: the claim says validation returns a pair of a
boolean and a structured error list; at the concrete record that is an empty
dict the function returns the bare Python bool False, not a tuple. -/
theorem C4_counterexample :
    ¬ ∃ (ok : Bool) (errs : List String),
      validate_request_ret (.obj .nil) = PyRet.tuple ok errs := by
  rintro ⟨ok, errs, h⟩
  simp [validate_request_ret] at h

/-- Claim C4 amended: validate_request returns a single boolean verdict —
true exactly when the key-normalized record passes the schema check (whose
per-violation error list is logged inside the function, not returned). -/
theorem C4_returns_bool (r : J) :
    validate_request_ret r = .bool (validate_request r) ∧
    (validate_request r = true ↔
      ∃ es, r = .obj es ∧ cvRequestErrors (transformEntries es .nil) = []) := by
  refine ⟨rfl, ?_⟩
  cases r with
  | obj es =>
      constructor
      · intro h
        exact ⟨es, rfl, by simpa [validate_request, List.isEmpty_iff] using h⟩
      · rintro ⟨es2, heq, h2⟩
        injection heq with heq2
        subst heq2
        simp [validate_request, List.isEmpty_iff, h2]
  | str s =>
      simp only [validate_request]
      constructor
      · intro h; cases h
      · rintro ⟨es2, heq, _⟩; cases heq
  | int n =>
      simp only [validate_request]
      constructor
      · intro h; cases h
      · rintro ⟨es2, heq, _⟩; cases heq
  | bool b =>
      simp only [validate_request]
      constructor
      · intro h; cases h
      · rintro ⟨es2, heq, _⟩; cases heq
  | null =>
      simp only [validate_request]
      constructor
      · intro h; cases h
      · rintro ⟨es2, heq, _⟩; cases heq
  | arr xs =>
      simp only [validate_request]
      constructor
      · intro h; cases h
      · rintro ⟨es2, heq, _⟩; cases heq

/-! ## FormatAdapter lemmas -/

theorem lookup_addVerbatimList_other (src : JEntries) (key k : String) (d : JEntries)
    (h : key ≠ k) : lookup k (addVerbatimList src key d) = lookup k d := by
  rcases hsrc : lookup key src with _ | v
  · simp [addVerbatimList, hsrc]
  · cases v <;> simp [addVerbatimList, hsrc, lookup_setKey, h]

theorem lookup_addVerbatimList_self (src : JEntries) (key : String) (d : JEntries)
    (hd : lookup key d = none) :
    lookup key (addVerbatimList src key d) =
      (match lookup key src with
       | some (.arr xs) => some (.arr xs)
       | _ => none) := by
  rcases hsrc : lookup key src with _ | v
  · simp [addVerbatimList, hsrc, hd]
  · cases v <;> simp [addVerbatimList, hsrc, lookup_setKey, hd]

theorem addMappedList_ok_inv (src : JEntries) (sk dk : String)
    (fields : List (String × String × J)) (d d2 : JEntries)
    (h : addMappedList src sk dk fields d = .ok d2) :
    (∃ xs m, lookup sk src = some (.arr xs) ∧ mapItems fields xs = .ok m ∧
       d2 = setKey dk (.arr m) d) ∨
    ((∀ xs, ¬ lookup sk src = some (.arr xs)) ∧ d2 = d) := by
  rcases hsrc : lookup sk src with _ | v
  · have heq : addMappedList src sk dk fields d = .ok d := by rw [addMappedList, hsrc]
    rw [heq] at h
    injection h with h2
    exact Or.inr ⟨by simp [hsrc], h2.symm⟩
  · cases v with
    | arr xs =>
        have heq : addMappedList src sk dk fields d =
            (mapItems fields xs).bind fun m => .ok (setKey dk (.arr m) d) := by
          rw [addMappedList, hsrc]
          rfl
        rw [heq] at h
        rcases hm : mapItems fields xs with e | m
        · rw [hm] at h
          exact Except.noConfusion h
        · rw [hm] at h
          have h2 : Except.ok (setKey dk (J.arr m) d) = Except.ok d2 := h
          injection h2 with h3
          exact Or.inl ⟨xs, m, rfl, hm, h3.symm⟩
    | str s =>
        have heq : addMappedList src sk dk fields d = .ok d := by rw [addMappedList, hsrc]
        rw [heq] at h
        injection h with h2
        exact Or.inr ⟨by simp [hsrc], h2.symm⟩
    | int n =>
        have heq : addMappedList src sk dk fields d = .ok d := by rw [addMappedList, hsrc]
        rw [heq] at h
        injection h with h2
        exact Or.inr ⟨by simp [hsrc], h2.symm⟩
    | bool b =>
        have heq : addMappedList src sk dk fields d = .ok d := by rw [addMappedList, hsrc]
        rw [heq] at h
        injection h with h2
        exact Or.inr ⟨by simp [hsrc], h2.symm⟩
    | null =>
        have heq : addMappedList src sk dk fields d = .ok d := by rw [addMappedList, hsrc]
        rw [heq] at h
        injection h with h2
        exact Or.inr ⟨by simp [hsrc], h2.symm⟩
    | obj es =>
        have heq : addMappedList src sk dk fields d = .ok d := by rw [addMappedList, hsrc]
        rw [heq] at h
        injection h with h2
        exact Or.inr ⟨by simp [hsrc], h2.symm⟩

theorem lookup_addMappedList_other (src : JEntries) (sk dk k : String)
    (fields : List (String × String × J)) (d d2 : JEntries)
    (h : addMappedList src sk dk fields d = .ok d2) (hk : dk ≠ k) :
    lookup k d2 = lookup k d := by
  rcases addMappedList_ok_inv src sk dk fields d d2 h with ⟨xs, m, _, _, rfl⟩ | ⟨_, rfl⟩
  · rw [lookup_setKey]
    simp [hk]
  · rfl

theorem mapItems_allObjs (fields : List (String × String × J)) :
    (xs m : JList) → mapItems fields xs = .ok m → allObjs m = true
  | .nil, m, h => by
      injection h with h2
      subst h2
      rfl
  | .cons hd tl, m, h => by
      cases hd with
      | obj es =>
          have heq : mapItems fields (.cons (.obj es) tl) =
              (mapItems fields tl).bind fun tl2 =>
                .ok (.cons (.obj (mapItem fields es)) tl2) := by
            simp only [mapItems]
            rfl
          rw [heq] at h
          rcases ht : mapItems fields tl with e | tl2
          · rw [ht] at h
            exact Except.noConfusion h
          · rw [ht] at h
            have h2 : Except.ok (JList.cons (.obj (mapItem fields es)) tl2) =
                Except.ok m := h
            injection h2 with h3
            subst h3
            simp [allObjs, isObj, mapItems_allObjs fields tl tl2 ht]
      | str s => simp [mapItems] at h
      | int n => simp [mapItems] at h
      | bool b => simp [mapItems] at h
      | null => simp [mapItems] at h
      | arr a => simp [mapItems] at h

theorem mapItems_ok (fields : List (String × String × J)) :
    (xs : JList) → allObjs xs = true → ∃ m, mapItems fields xs = .ok m
  | .nil, _ => ⟨.nil, rfl⟩
  | .cons hd tl, h => by
      have hh : isObj hd = true ∧ allObjs tl = true := by simpa [allObjs] using h
      cases hd with
      | obj es =>
          obtain ⟨m2, hm2⟩ := mapItems_ok fields tl hh.2
          refine ⟨.cons (.obj (mapItem fields es)) m2, ?_⟩
          have heq : mapItems fields (.cons (.obj es) tl) =
              (mapItems fields tl).bind fun tl2 =>
                .ok (.cons (.obj (mapItem fields es)) tl2) := by
            simp only [mapItems]
            rfl
          rw [heq, hm2]
          rfl
      | str s => simp [isObj] at hh
      | int n => simp [isObj] at hh
      | bool b => simp [isObj] at hh
      | null => simp [isObj] at hh
      | arr a => simp [isObj] at hh

theorem addMappedList_ok (src : JEntries) (sk dk : String)
    (fields : List (String × String × J)) (d : JEntries)
    (hsub : ∀ xs, lookup sk src = some (.arr xs) → allObjs xs = true) :
    ∃ d2, addMappedList src sk dk fields d = .ok d2 := by
  rcases hsrc : lookup sk src with _ | v
  · exact ⟨d, by rw [addMappedList, hsrc]⟩
  · cases v with
    | arr xs =>
        obtain ⟨m, hm⟩ := mapItems_ok fields xs (hsub xs hsrc)
        refine ⟨setKey dk (.arr m) d, ?_⟩
        have heq : addMappedList src sk dk fields d =
            (mapItems fields xs).bind fun m => .ok (setKey dk (.arr m) d) := by
          rw [addMappedList, hsrc]
          rfl
        rw [heq, hm]
        rfl
    | str s => exact ⟨d, by rw [addMappedList, hsrc]⟩
    | int n => exact ⟨d, by rw [addMappedList, hsrc]⟩
    | bool b => exact ⟨d, by rw [addMappedList, hsrc]⟩
    | null => exact ⟨d, by rw [addMappedList, hsrc]⟩
    | obj es => exact ⟨d, by rw [addMappedList, hsrc]⟩

theorem addMappedList_allObjs (src : JEntries) (sk dk : String)
    (fields : List (String × String × J)) (d d2 : JEntries)
    (h : addMappedList src sk dk fields d = .ok d2)
    (hd : ∀ ys, lookup dk d = some (.arr ys) → allObjs ys = true) :
    ∀ ys, lookup dk d2 = some (.arr ys) → allObjs ys = true := by
  rcases addMappedList_ok_inv src sk dk fields d d2 h with ⟨xs, m, hsrc, hm, rfl⟩ | ⟨_, rfl⟩
  · intro ys hy
    rw [lookup_setKey] at hy
    simp at hy
    subst hy
    exact mapItems_allObjs fields xs m hm
  · exact hd

/-- Does one link get assigned to the linkedin field?  It must be a string
containing "linkedin" case-insensitively. -/
def linkedinMatch (v : J) : Option String :=
  match v with
  | .str s => if strContainsLower "linkedin" s then some s else none
  | _ => none

/-- Does one link get assigned to the website field?  It must be a string
not containing "linkedin" (the elif) but containing "github" or "gitlab",
case-insensitively. -/
def websiteMatch (v : J) : Option String :=
  match v with
  | .str s =>
      if strContainsLower "linkedin" s then none
      else if strContainsLower "github" s || strContainsLower "gitlab" s then some s
      else none
  | _ => none

/-- The last element of the list on which f fires, if any — the loop
overwrites, so the last match wins. -/
def lastSome (f : J → Option String) : JList → Option String
  | .nil => none
  | .cons hd tl =>
      match lastSome f tl with
      | some s => some s
      | none => f hd

theorem lookup_linkStep_other (k : String) (h1 : k ≠ "linkedin") (h2 : k ≠ "website")
    (d : JEntries) (link : J) : lookup k (linkStep d link) = lookup k d := by
  have h1b : ¬ ("linkedin" : String) = k := fun hh => h1 hh.symm
  have h2b : ¬ ("website" : String) = k := fun hh => h2 hh.symm
  cases link with
  | str s =>
      by_cases hl : strContainsLower "linkedin" s = true
      · simp [linkStep, hl, lookup_setKey, h1b]
      · by_cases hg : (strContainsLower "github" s || strContainsLower "gitlab" s) = true
        · simp [linkStep, hl, hg, lookup_setKey, h2b]
        · simp [linkStep, hl, hg]
  | int n => rfl
  | bool b => rfl
  | null => rfl
  | arr xs => rfl
  | obj es => rfl

theorem lookup_linksFold_other (k : String) (h1 : k ≠ "linkedin") (h2 : k ≠ "website") :
    (ls : JList) → (d : JEntries) → lookup k (linksFold ls d) = lookup k d
  | .nil, d => rfl
  | .cons hd tl, d => by
      simp only [linksFold]
      rw [lookup_linksFold_other k h1 h2 tl (linkStep d hd)]
      exact lookup_linkStep_other k h1 h2 d hd

theorem lookup_linksFold_linkedin : (ls : JList) → (d : JEntries) →
    lookup "linkedin" (linksFold ls d) =
      (match lastSome linkedinMatch ls with
       | some s => some (.str s)
       | none => lookup "linkedin" d)
  | .nil, d => rfl
  | .cons hd tl, d => by
      simp only [linksFold, lastSome]
      rw [lookup_linksFold_linkedin tl (linkStep d hd)]
      rcases hlast : lastSome linkedinMatch tl with _ | s
      · cases hd with
        | str s2 =>
            by_cases hl : strContainsLower "linkedin" s2 = true
            · simp [linkStep, hl, linkedinMatch, lookup_setKey]
            · by_cases hg : (strContainsLower "github" s2 || strContainsLower "gitlab" s2) = true
              · simp [linkStep, hl, hg, linkedinMatch, lookup_setKey]
              · simp [linkStep, hl, hg, linkedinMatch]
        | int n => simp [linkStep, linkedinMatch]
        | bool b => simp [linkStep, linkedinMatch]
        | null => simp [linkStep, linkedinMatch]
        | arr xs => simp [linkStep, linkedinMatch]
        | obj es => simp [linkStep, linkedinMatch]
      · simp

theorem lookup_linksFold_website : (ls : JList) → (d : JEntries) →
    lookup "website" (linksFold ls d) =
      (match lastSome websiteMatch ls with
       | some s => some (.str s)
       | none => lookup "website" d)
  | .nil, d => rfl
  | .cons hd tl, d => by
      simp only [linksFold, lastSome]
      rw [lookup_linksFold_website tl (linkStep d hd)]
      rcases hlast : lastSome websiteMatch tl with _ | s
      · cases hd with
        | str s2 =>
            by_cases hl : strContainsLower "linkedin" s2 = true
            · simp [linkStep, hl, websiteMatch, lookup_setKey]
            · by_cases hg : (strContainsLower "github" s2 || strContainsLower "gitlab" s2) = true
              · simp [linkStep, hl, hg, websiteMatch, lookup_setKey]
              · simp [linkStep, hl, hg, websiteMatch]
        | int n => simp [linkStep, websiteMatch]
        | bool b => simp [linkStep, websiteMatch]
        | null => simp [linkStep, websiteMatch]
        | arr xs => simp [linkStep, websiteMatch]
        | obj es => simp [linkStep, websiteMatch]
      · simp

/-- Which string ends up in the linkedin field of the parser_to_generator
output: the last matching string of the links list, when links is a list. -/
def linkedinOf (es : JEntries) : Option String :=
  match lookup "links" es with
  | some (.arr ls) => lastSome linkedinMatch ls
  | _ => none

/-- Likewise for the website field. -/
def websiteOf (es : JEntries) : Option String :=
  match lookup "links" es with
  | some (.arr ls) => lastSome websiteMatch ls
  | _ => none

theorem lookup_linksApplied_other (es d : JEntries) (k : String)
    (h1 : k ≠ "linkedin") (h2 : k ≠ "website") :
    lookup k (linksApplied es d) = lookup k d := by
  rcases hsrc : lookup "links" es with _ | v
  · simp [linksApplied, hsrc]
  · cases v <;> simp [linksApplied, hsrc, lookup_linksFold_other k h1 h2]

theorem lookup_linksApplied_linkedin (es d : JEntries)
    (hd : lookup "linkedin" d = none) :
    lookup "linkedin" (linksApplied es d) = (linkedinOf es).map J.str := by
  rcases hsrc : lookup "links" es with _ | v
  · simp [linksApplied, linkedinOf, hsrc, hd]
  · cases v with
    | arr ls =>
        simp only [linksApplied, linkedinOf, hsrc]
        rw [lookup_linksFold_linkedin ls d]
        rcases lastSome linkedinMatch ls with _ | s
        · simp [hd]
        · simp
    | str s => simp [linksApplied, linkedinOf, hsrc, hd]
    | int n => simp [linksApplied, linkedinOf, hsrc, hd]
    | bool b => simp [linksApplied, linkedinOf, hsrc, hd]
    | null => simp [linksApplied, linkedinOf, hsrc, hd]
    | obj es2 => simp [linksApplied, linkedinOf, hsrc, hd]

theorem lookup_linksApplied_website (es d : JEntries)
    (hd : lookup "website" d = none) :
    lookup "website" (linksApplied es d) = (websiteOf es).map J.str := by
  rcases hsrc : lookup "links" es with _ | v
  · simp [linksApplied, websiteOf, hsrc, hd]
  · cases v with
    | arr ls =>
        simp only [linksApplied, websiteOf, hsrc]
        rw [lookup_linksFold_website ls d]
        rcases lastSome websiteMatch ls with _ | s
        · simp [hd]
        · simp
    | str s => simp [linksApplied, websiteOf, hsrc, hd]
    | int n => simp [linksApplied, websiteOf, hsrc, hd]
    | bool b => simp [linksApplied, websiteOf, hsrc, hd]
    | null => simp [linksApplied, websiteOf, hsrc, hd]
    | obj es2 => simp [linksApplied, websiteOf, hsrc, hd]

/-- Whenever parser_to_generator succeeds on a non-empty dict, the output is
a single data dict whose personal fields come from contact_info with the
coded defaults, whose linkedin/website fields hold the last matching link of
each category, and whose skills are copied verbatim. -/
theorem p2g_fields (k0 : String) (v0 : J) (tl0 cs : JEntries) (out : J)
    (hci : (lookup "contact_info" (JEntries.cons k0 v0 tl0)).getD (.obj .nil) = .obj cs)
    (h : parser_to_generator (.obj (.cons k0 v0 tl0)) = .ok out) :
    ∃ d, out = .obj (.cons "data" (.obj d) .nil) ∧
      lookup "firstName" d = some ((lookup "first_name" cs).getD (.str "")) ∧
      lookup "surname" d = some ((lookup "last_name" cs).getD (.str "")) ∧
      lookup "email" d = some ((lookup "email" cs).getD .null) ∧
      lookup "phone" d = some ((lookup "phone" cs).getD .null) ∧
      lookup "address" d = some ((lookup "location" cs).getD .null) ∧
      lookup "profileStatement" d =
        some ((lookup "personal_statement" (JEntries.cons k0 v0 tl0)).getD (.str "")) ∧
      lookup "linkedin" d = (linkedinOf (JEntries.cons k0 v0 tl0)).map J.str ∧
      lookup "website" d = (websiteOf (JEntries.cons k0 v0 tl0)).map J.str ∧
      lookup "skills" d =
        (match lookup "skills" (JEntries.cons k0 v0 tl0) with
         | some (.arr xs) => some (.arr xs)
         | _ => none) := by
  have hbody : parser_to_generator (.obj (.cons k0 v0 tl0)) =
      (addMappedList (.cons k0 v0 tl0) "experience" "experience" expFieldsPG
        (addVerbatimList (.cons k0 v0 tl0) "skills"
          (linksApplied (.cons k0 v0 tl0) (baseData (.cons k0 v0 tl0) cs)))).bind fun d3 =>
      (addMappedList (.cons k0 v0 tl0) "education" "education" eduFieldsPG d3).bind fun d4 =>
      (addMappedList (.cons k0 v0 tl0) "certifications" "certifications" certItemFields d4).bind fun d5 =>
      (addMappedList (.cons k0 v0 tl0) "languages" "languages" langItemFields d5).bind fun d6 =>
      (addMappedList (.cons k0 v0 tl0) "achievements" "achievements" achItemFields d6).bind fun d7 =>
      .ok (.obj (.cons "data" (.obj d7) .nil)) := by
    simp only [parser_to_generator]
    rw [hci]
    rfl
  rw [hbody] at h
  rcases h3x : addMappedList (.cons k0 v0 tl0) "experience" "experience" expFieldsPG
      (addVerbatimList (.cons k0 v0 tl0) "skills"
        (linksApplied (.cons k0 v0 tl0) (baseData (.cons k0 v0 tl0) cs))) with e | d3
  · rw [h3x] at h
    exact Except.noConfusion h
  rw [h3x] at h
  simp only [Except.bind] at h
  rcases h4x : addMappedList (.cons k0 v0 tl0) "education" "education" eduFieldsPG d3 with e | d4
  · rw [h4x] at h
    exact Except.noConfusion h
  rw [h4x] at h
  simp only [Except.bind] at h
  rcases h5x : addMappedList (.cons k0 v0 tl0) "certifications" "certifications" certItemFields d4 with e | d5
  · rw [h5x] at h
    exact Except.noConfusion h
  rw [h5x] at h
  simp only [Except.bind] at h
  rcases h6x : addMappedList (.cons k0 v0 tl0) "languages" "languages" langItemFields d5 with e | d6
  · rw [h6x] at h
    exact Except.noConfusion h
  rw [h6x] at h
  simp only [Except.bind] at h
  rcases h7x : addMappedList (.cons k0 v0 tl0) "achievements" "achievements" achItemFields d6 with e | d7
  · rw [h7x] at h
    exact Except.noConfusion h
  rw [h7x] at h
  simp only [Except.bind] at h
  have hout : Except.ok (J.obj (.cons "data" (.obj d7) .nil)) = Except.ok out := h
  injection hout with hout2
  have hpres : ∀ k : String, k ≠ "experience" → k ≠ "education" → k ≠ "certifications" →
      k ≠ "languages" → k ≠ "achievements" →
      lookup k d7 = lookup k (addVerbatimList (.cons k0 v0 tl0) "skills"
        (linksApplied (.cons k0 v0 tl0) (baseData (.cons k0 v0 tl0) cs))) := by
    intro k hk1 hk2 hk3 hk4 hk5
    rw [lookup_addMappedList_other _ _ _ _ _ _ _ h7x (fun hh => hk5 hh.symm),
        lookup_addMappedList_other _ _ _ _ _ _ _ h6x (fun hh => hk4 hh.symm),
        lookup_addMappedList_other _ _ _ _ _ _ _ h5x (fun hh => hk3 hh.symm),
        lookup_addMappedList_other _ _ _ _ _ _ _ h4x (fun hh => hk2 hh.symm),
        lookup_addMappedList_other _ _ _ _ _ _ _ h3x (fun hh => hk1 hh.symm)]
  refine ⟨d7, hout2.symm, ?_, ?_, ?_, ?_, ?_, ?_, ?_, ?_, ?_⟩
  · rw [hpres "firstName" (by decide) (by decide) (by decide) (by decide) (by decide),
        lookup_addVerbatimList_other _ _ _ _ (by decide),
        lookup_linksApplied_other _ _ _ (by decide) (by decide)]
    rfl
  · rw [hpres "surname" (by decide) (by decide) (by decide) (by decide) (by decide),
        lookup_addVerbatimList_other _ _ _ _ (by decide),
        lookup_linksApplied_other _ _ _ (by decide) (by decide)]
    rfl
  · rw [hpres "email" (by decide) (by decide) (by decide) (by decide) (by decide),
        lookup_addVerbatimList_other _ _ _ _ (by decide),
        lookup_linksApplied_other _ _ _ (by decide) (by decide)]
    rfl
  · rw [hpres "phone" (by decide) (by decide) (by decide) (by decide) (by decide),
        lookup_addVerbatimList_other _ _ _ _ (by decide),
        lookup_linksApplied_other _ _ _ (by decide) (by decide)]
    rfl
  · rw [hpres "address" (by decide) (by decide) (by decide) (by decide) (by decide),
        lookup_addVerbatimList_other _ _ _ _ (by decide),
        lookup_linksApplied_other _ _ _ (by decide) (by decide)]
    rfl
  · rw [hpres "profileStatement" (by decide) (by decide) (by decide) (by decide) (by decide),
        lookup_addVerbatimList_other _ _ _ _ (by decide),
        lookup_linksApplied_other _ _ _ (by decide) (by decide)]
    rfl
  · rw [hpres "linkedin" (by decide) (by decide) (by decide) (by decide) (by decide),
        lookup_addVerbatimList_other _ _ _ _ (by decide),
        lookup_linksApplied_linkedin (.cons k0 v0 tl0) (baseData (.cons k0 v0 tl0) cs) rfl]
  · rw [hpres "website" (by decide) (by decide) (by decide) (by decide) (by decide),
        lookup_addVerbatimList_other _ _ _ _ (by decide),
        lookup_linksApplied_website (.cons k0 v0 tl0) (baseData (.cons k0 v0 tl0) cs) rfl]
  · rw [hpres "skills" (by decide) (by decide) (by decide) (by decide) (by decide),
        lookup_addVerbatimList_self _ _ _
          (by rw [lookup_linksApplied_other _ _ _ (by decide) (by decide)]; rfl)]

theorem lookup_linksR_other (ds : JEntries) (k : String) (hk : k ≠ "links") :
    lookup k (linksR ds) = lookup k (parserBase ds) := by
  have hk2 : ¬ ("links" : String) = k := fun hh => hk hh.symm
  rcases hlv : linksValue ds with _ | v
  · simp [linksR, hlv]
  · simp [linksR, hlv, lookup_setKey, hk2]

theorem lookup_linksR_links (ds : JEntries) :
    lookup "links" (linksR ds) = linksValue ds := by
  rcases hlv : linksValue ds with _ | v
  · simp [linksR, hlv]
    rfl
  · simp [linksR, hlv, lookup_setKey]

/-- Whenever generator_to_parser succeeds on a non-empty dict, the output is
a parser record with contact_info and personal_statement built from the data
dict with empty-string defaults; links holds the truthy linkedin/website
values in order (omitted when both are skipped); skills are verbatim, and
every mapped list subsection consists of dicts. -/
theorem g2p_fields (k0 : String) (v0 : J) (tl0 ds : JEntries) (pr : J)
    (hdata : (lookup "data" (JEntries.cons k0 v0 tl0)).getD (.obj .nil) = .obj ds)
    (h : generatorToParser (.obj (.cons k0 v0 tl0)) = .ok pr) :
    ∃ p, pr = .obj p ∧
      lookup "contact_info" p = some (.obj (ciOf ds)) ∧
      lookup "personal_statement" p = some ((lookup "profileStatement" ds).getD (.str "")) ∧
      lookup "links" p = linksValue ds ∧
      lookup "skills" p =
        (match lookup "skills" ds with
         | some (.arr xs) => some (.arr xs)
         | _ => none) ∧
      (∀ ys, lookup "experience" p = some (.arr ys) → allObjs ys = true) ∧
      (∀ ys, lookup "education" p = some (.arr ys) → allObjs ys = true) ∧
      (∀ ys, lookup "certifications" p = some (.arr ys) → allObjs ys = true) ∧
      (∀ ys, lookup "languages" p = some (.arr ys) → allObjs ys = true) ∧
      (∀ ys, lookup "achievements" p = some (.arr ys) → allObjs ys = true) := by
  have hbody : generatorToParser (.obj (.cons k0 v0 tl0)) =
      (addMappedList ds "experience" "experience" expFieldsGP
        (addVerbatimList ds "skills" (linksR ds))).bind fun r3 =>
      (addMappedList ds "education" "education" eduFieldsGP r3).bind fun r4 =>
      (addMappedList ds "certifications" "certifications" certItemFields r4).bind fun r5 =>
      (addMappedList ds "languages" "languages" langItemFields r5).bind fun r6 =>
      (addMappedList ds "achievements" "achievements" achItemFields r6).bind fun r7 =>
      .ok (.obj r7) := by
    simp only [generatorToParser]
    rw [hdata]
    rfl
  rw [hbody] at h
  rcases h3x : addMappedList ds "experience" "experience" expFieldsGP
      (addVerbatimList ds "skills" (linksR ds)) with e | r3
  · rw [h3x] at h
    exact Except.noConfusion h
  rw [h3x] at h
  simp only [Except.bind] at h
  rcases h4x : addMappedList ds "education" "education" eduFieldsGP r3 with e | r4
  · rw [h4x] at h
    exact Except.noConfusion h
  rw [h4x] at h
  simp only [Except.bind] at h
  rcases h5x : addMappedList ds "certifications" "certifications" certItemFields r4 with e | r5
  · rw [h5x] at h
    exact Except.noConfusion h
  rw [h5x] at h
  simp only [Except.bind] at h
  rcases h6x : addMappedList ds "languages" "languages" langItemFields r5 with e | r6
  · rw [h6x] at h
    exact Except.noConfusion h
  rw [h6x] at h
  simp only [Except.bind] at h
  rcases h7x : addMappedList ds "achievements" "achievements" achItemFields r6 with e | r7
  · rw [h7x] at h
    exact Except.noConfusion h
  rw [h7x] at h
  simp only [Except.bind] at h
  have hout : Except.ok (J.obj r7) = Except.ok pr := h
  injection hout with hout2
  have hpres : ∀ k : String, k ≠ "experience" → k ≠ "education" → k ≠ "certifications" →
      k ≠ "languages" → k ≠ "achievements" →
      lookup k r7 = lookup k (addVerbatimList ds "skills" (linksR ds)) := by
    intro k hk1 hk2 hk3 hk4 hk5
    rw [lookup_addMappedList_other _ _ _ _ _ _ _ h7x (fun hh => hk5 hh.symm),
        lookup_addMappedList_other _ _ _ _ _ _ _ h6x (fun hh => hk4 hh.symm),
        lookup_addMappedList_other _ _ _ _ _ _ _ h5x (fun hh => hk3 hh.symm),
        lookup_addMappedList_other _ _ _ _ _ _ _ h4x (fun hh => hk2 hh.symm),
        lookup_addMappedList_other _ _ _ _ _ _ _ h3x (fun hh => hk1 hh.symm)]
  refine ⟨r7, hout2.symm, ?_, ?_, ?_, ?_, ?_, ?_, ?_, ?_, ?_⟩
  · rw [hpres "contact_info" (by decide) (by decide) (by decide) (by decide) (by decide),
        lookup_addVerbatimList_other _ _ _ _ (by decide),
        lookup_linksR_other _ _ (by decide)]
    rfl
  · rw [hpres "personal_statement" (by decide) (by decide) (by decide) (by decide) (by decide),
        lookup_addVerbatimList_other _ _ _ _ (by decide),
        lookup_linksR_other _ _ (by decide)]
    rfl
  · rw [hpres "links" (by decide) (by decide) (by decide) (by decide) (by decide),
        lookup_addVerbatimList_other _ _ _ _ (by decide),
        lookup_linksR_links]
  · rw [hpres "skills" (by decide) (by decide) (by decide) (by decide) (by decide),
        lookup_addVerbatimList_self _ _ _
          (by rw [lookup_linksR_other _ _ (by decide)]; rfl)]
  · intro ys hy
    rw [lookup_addMappedList_other _ _ _ _ _ _ _ h7x (by decide),
        lookup_addMappedList_other _ _ _ _ _ _ _ h6x (by decide),
        lookup_addMappedList_other _ _ _ _ _ _ _ h5x (by decide),
        lookup_addMappedList_other _ _ _ _ _ _ _ h4x (by decide)] at hy
    refine addMappedList_allObjs _ _ _ _ _ _ h3x ?_ ys hy
    intro zs hz
    rw [lookup_addVerbatimList_other _ _ _ _ (by decide),
        lookup_linksR_other _ _ (by decide)] at hz
    exact Option.noConfusion hz
  · intro ys hy
    rw [lookup_addMappedList_other _ _ _ _ _ _ _ h7x (by decide),
        lookup_addMappedList_other _ _ _ _ _ _ _ h6x (by decide),
        lookup_addMappedList_other _ _ _ _ _ _ _ h5x (by decide)] at hy
    refine addMappedList_allObjs _ _ _ _ _ _ h4x ?_ ys hy
    intro zs hz
    rw [lookup_addMappedList_other _ _ _ _ _ _ _ h3x (by decide),
        lookup_addVerbatimList_other _ _ _ _ (by decide),
        lookup_linksR_other _ _ (by decide)] at hz
    exact Option.noConfusion hz
  · intro ys hy
    rw [lookup_addMappedList_other _ _ _ _ _ _ _ h7x (by decide),
        lookup_addMappedList_other _ _ _ _ _ _ _ h6x (by decide)] at hy
    refine addMappedList_allObjs _ _ _ _ _ _ h5x ?_ ys hy
    intro zs hz
    rw [lookup_addMappedList_other _ _ _ _ _ _ _ h4x (by decide),
        lookup_addMappedList_other _ _ _ _ _ _ _ h3x (by decide),
        lookup_addVerbatimList_other _ _ _ _ (by decide),
        lookup_linksR_other _ _ (by decide)] at hz
    exact Option.noConfusion hz
  · intro ys hy
    rw [lookup_addMappedList_other _ _ _ _ _ _ _ h7x (by decide)] at hy
    refine addMappedList_allObjs _ _ _ _ _ _ h6x ?_ ys hy
    intro zs hz
    rw [lookup_addMappedList_other _ _ _ _ _ _ _ h5x (by decide),
        lookup_addMappedList_other _ _ _ _ _ _ _ h4x (by decide),
        lookup_addMappedList_other _ _ _ _ _ _ _ h3x (by decide),
        lookup_addVerbatimList_other _ _ _ _ (by decide),
        lookup_linksR_other _ _ (by decide)] at hz
    exact Option.noConfusion hz
  · intro ys hy
    refine addMappedList_allObjs _ _ _ _ _ _ h7x ?_ ys hy
    intro zs hz
    rw [lookup_addMappedList_other _ _ _ _ _ _ _ h6x (by decide),
        lookup_addMappedList_other _ _ _ _ _ _ _ h5x (by decide),
        lookup_addMappedList_other _ _ _ _ _ _ _ h4x (by decide),
        lookup_addMappedList_other _ _ _ _ _ _ _ h3x (by decide),
        lookup_addVerbatimList_other _ _ _ _ (by decide),
        lookup_linksR_other _ _ (by decide)] at hz
    exact Option.noConfusion hz

/-! ## Claim theorems: FormatAdapter -/

/-- Claim C2 counterexample: on the links list [a-linkedin, b-linkedin] the
claim as stated assigns the FIRST match a-linkedin to the linkedin field;
the code keeps the LAST match b-linkedin. -/
theorem C2_counterexample :
    (parser_to_generator (.obj (.cons "links" (.arr (.cons (.str "a-linkedin")
        (.cons (.str "b-linkedin") .nil))) .nil))).map
      (fun out => dataField out "linkedin") = .ok (some (.str "b-linkedin")) ∧
    ¬ ("b-linkedin" : String) = "a-linkedin" := by
  exact ⟨rfl, by decide⟩

/-- Claim C2 amended: the links loop assigns, of the string links matching
each category, the LAST one (each assignment overwrites the previous), and
links matching neither category are dropped: the output linkedin and website
fields are exactly the last matching link of each category (absent when no
link matches). -/
theorem C2_links_last_match (k0 : String) (v0 : J) (tl0 : JEntries) (ls : JList) (out : J)
    (hlinks : lookup "links" (JEntries.cons k0 v0 tl0) = some (.arr ls))
    (h : parser_to_generator (.obj (.cons k0 v0 tl0)) = .ok out) :
    dataField out "linkedin" = (lastSome linkedinMatch ls).map J.str ∧
    dataField out "website" = (lastSome websiteMatch ls).map J.str := by
  cases hci : (lookup "contact_info" (JEntries.cons k0 v0 tl0)).getD (.obj .nil) with
  | obj cs =>
      obtain ⟨d, hout, _, _, _, _, _, _, hl, hw, _⟩ := p2g_fields k0 v0 tl0 cs out hci h
      subst hout
      constructor
      · show lookup "linkedin" d = _
        rw [hl]
        simp [linkedinOf, hlinks]
      · show lookup "website" d = _
        rw [hw]
        simp [websiteOf, hlinks]
  | str s =>
      have herr : parser_to_generator (.obj (.cons k0 v0 tl0)) = .error .attributeError := by
        simp only [parser_to_generator]
        rw [hci]
      rw [herr] at h
      exact Except.noConfusion h
  | int n =>
      have herr : parser_to_generator (.obj (.cons k0 v0 tl0)) = .error .attributeError := by
        simp only [parser_to_generator]
        rw [hci]
      rw [herr] at h
      exact Except.noConfusion h
  | bool b =>
      have herr : parser_to_generator (.obj (.cons k0 v0 tl0)) = .error .attributeError := by
        simp only [parser_to_generator]
        rw [hci]
      rw [herr] at h
      exact Except.noConfusion h
  | null =>
      have herr : parser_to_generator (.obj (.cons k0 v0 tl0)) = .error .attributeError := by
        simp only [parser_to_generator]
        rw [hci]
      rw [herr] at h
      exact Except.noConfusion h
  | arr xs =>
      have herr : parser_to_generator (.obj (.cons k0 v0 tl0)) = .error .attributeError := by
        simp only [parser_to_generator]
        rw [hci]
      rw [herr] at h
      exact Except.noConfusion h

/-- Witness for C2 amended on links
[x-linkedin, y-LinkedIn, z-github]: the later y-LinkedIn wins the linkedin
field (case-insensitively) and z-github lands in website. -/
theorem C2_links_last_match_witness :
    ∃ out, parser_to_generator (.obj (.cons "links" (.arr (.cons (.str "x-linkedin")
        (.cons (.str "y-LinkedIn") (.cons (.str "z-github") .nil)))) .nil)) = .ok out ∧
      dataField out "linkedin" =
        (lastSome linkedinMatch (.cons (.str "x-linkedin")
          (.cons (.str "y-LinkedIn") (.cons (.str "z-github") .nil)))).map J.str ∧
      dataField out "website" =
        (lastSome websiteMatch (.cons (.str "x-linkedin")
          (.cons (.str "y-LinkedIn") (.cons (.str "z-github") .nil)))).map J.str ∧
      dataField out "linkedin" = some (.str "y-LinkedIn") ∧
      dataField out "website" = some (.str "z-github") := by
  refine ⟨_, rfl, ?_⟩
  have hpair := C2_links_last_match "links"
    (.arr (.cons (.str "x-linkedin") (.cons (.str "y-LinkedIn")
      (.cons (.str "z-github") .nil)))) .nil
    (.cons (.str "x-linkedin") (.cons (.str "y-LinkedIn") (.cons (.str "z-github") .nil)))
    _ rfl rfl
  exact ⟨hpair.1, hpair.2, hpair.1.trans rfl, hpair.2.trans rfl⟩

/-- Claim C10 counterexample: the claim says every non-empty mapping input
produces a result; the non-empty mapping with contact_info bound to the
number 5 makes the .get chain raise AttributeError instead. -/
theorem C10_counterexample :
    parser_to_generator (.obj (.cons "contact_info" (.int 5) .nil)) =
      .error .attributeError := by
  rfl

/-- Claim C10 amended: whenever parser_to_generator returns a result on a
non-empty mapping, the data object contains firstName, surname and
profileStatement with empty-string defaults when the source fields are
absent, and email, phone, address with the explicit value null — not an
empty string and not an omitted key — whenever contact_info lacks them. -/
theorem C10_base_fields (k0 : String) (v0 : J) (tl0 cs : JEntries) (out : J)
    (hci : (lookup "contact_info" (JEntries.cons k0 v0 tl0)).getD (.obj .nil) = .obj cs)
    (hfn : lookup "first_name" cs = none) (hln : lookup "last_name" cs = none)
    (hem : lookup "email" cs = none) (hph : lookup "phone" cs = none)
    (hlo : lookup "location" cs = none)
    (hps : lookup "personal_statement" (JEntries.cons k0 v0 tl0) = none)
    (h : parser_to_generator (.obj (.cons k0 v0 tl0)) = .ok out) :
    ∃ d, out = .obj (.cons "data" (.obj d) .nil) ∧
      lookup "firstName" d = some (.str "") ∧
      lookup "surname" d = some (.str "") ∧
      lookup "profileStatement" d = some (.str "") ∧
      lookup "email" d = some .null ∧
      lookup "phone" d = some .null ∧
      lookup "address" d = some .null := by
  obtain ⟨d, hout, h1, h2, h3, h4, h5, h6, _, _, _⟩ := p2g_fields k0 v0 tl0 cs out hci h
  refine ⟨d, hout, ?_, ?_, ?_, ?_, ?_, ?_⟩
  · rw [h1, hfn]
    rfl
  · rw [h2, hln]
    rfl
  · rw [h6, hps]
    rfl
  · rw [h3, hem]
    rfl
  · rw [h4, hph]
    rfl
  · rw [h5, hlo]
    rfl

/-- Witness for C10 amended at the non-empty mapping with a single unrelated
key and no contact_info at all. -/
theorem C10_base_fields_witness :
    ∃ out, parser_to_generator (.obj (.cons "x" (.int 1) .nil)) = .ok out ∧
      ∃ d, out = .obj (.cons "data" (.obj d) .nil) ∧
        lookup "firstName" d = some (.str "") ∧
        lookup "surname" d = some (.str "") ∧
        lookup "profileStatement" d = some (.str "") ∧
        lookup "email" d = some .null ∧
        lookup "phone" d = some .null ∧
        lookup "address" d = some .null :=
  ⟨_, rfl, C10_base_fields "x" (.int 1) .nil .nil _ rfl rfl rfl rfl rfl rfl rfl rfl⟩

/-- generator_to_parser succeeds whenever the data value is a dict and every
list subsection it maps consists of dicts. -/
theorem g2p_ok_of_subok (k0 : String) (v0 : J) (tl0 ds : JEntries)
    (hdata : (lookup "data" (JEntries.cons k0 v0 tl0)).getD (.obj .nil) = .obj ds)
    (hexp : ∀ xs, lookup "experience" ds = some (.arr xs) → allObjs xs = true)
    (hedu : ∀ xs, lookup "education" ds = some (.arr xs) → allObjs xs = true)
    (hcert : ∀ xs, lookup "certifications" ds = some (.arr xs) → allObjs xs = true)
    (hlang : ∀ xs, lookup "languages" ds = some (.arr xs) → allObjs xs = true)
    (hach : ∀ xs, lookup "achievements" ds = some (.arr xs) → allObjs xs = true) :
    ∃ pr, generatorToParser (.obj (.cons k0 v0 tl0)) = .ok pr := by
  have hbody : generatorToParser (.obj (.cons k0 v0 tl0)) =
      (addMappedList ds "experience" "experience" expFieldsGP
        (addVerbatimList ds "skills" (linksR ds))).bind fun r3 =>
      (addMappedList ds "education" "education" eduFieldsGP r3).bind fun r4 =>
      (addMappedList ds "certifications" "certifications" certItemFields r4).bind fun r5 =>
      (addMappedList ds "languages" "languages" langItemFields r5).bind fun r6 =>
      (addMappedList ds "achievements" "achievements" achItemFields r6).bind fun r7 =>
      .ok (.obj r7) := by
    simp only [generatorToParser]
    rw [hdata]
    rfl
  obtain ⟨r3, h3x⟩ := addMappedList_ok ds "experience" "experience" expFieldsGP
    (addVerbatimList ds "skills" (linksR ds)) hexp
  obtain ⟨r4, h4x⟩ := addMappedList_ok ds "education" "education" eduFieldsGP r3 hedu
  obtain ⟨r5, h5x⟩ := addMappedList_ok ds "certifications" "certifications" certItemFields r4 hcert
  obtain ⟨r6, h6x⟩ := addMappedList_ok ds "languages" "languages" langItemFields r5 hlang
  obtain ⟨r7, h7x⟩ := addMappedList_ok ds "achievements" "achievements" achItemFields r6 hach
  refine ⟨.obj r7, ?_⟩
  rw [hbody, h3x]
  simp only [Except.bind]
  rw [h4x]
  simp only [Except.bind]
  rw [h5x]
  simp only [Except.bind]
  rw [h6x]
  simp only [Except.bind]
  rw [h7x]

/-- parser_to_generator succeeds on a non-empty dict whenever contact_info
(defaulted to an empty dict) is a dict and every mapped list subsection
consists of dicts. -/
theorem p2g_ok_of_subok (k0 : String) (v0 : J) (tl0 cs : JEntries)
    (hci : (lookup "contact_info" (JEntries.cons k0 v0 tl0)).getD (.obj .nil) = .obj cs)
    (hexp : ∀ xs, lookup "experience" (JEntries.cons k0 v0 tl0) = some (.arr xs) → allObjs xs = true)
    (hedu : ∀ xs, lookup "education" (JEntries.cons k0 v0 tl0) = some (.arr xs) → allObjs xs = true)
    (hcert : ∀ xs, lookup "certifications" (JEntries.cons k0 v0 tl0) = some (.arr xs) → allObjs xs = true)
    (hlang : ∀ xs, lookup "languages" (JEntries.cons k0 v0 tl0) = some (.arr xs) → allObjs xs = true)
    (hach : ∀ xs, lookup "achievements" (JEntries.cons k0 v0 tl0) = some (.arr xs) → allObjs xs = true) :
    ∃ out, parser_to_generator (.obj (.cons k0 v0 tl0)) = .ok out := by
  have hbody : parser_to_generator (.obj (.cons k0 v0 tl0)) =
      (addMappedList (.cons k0 v0 tl0) "experience" "experience" expFieldsPG
        (addVerbatimList (.cons k0 v0 tl0) "skills"
          (linksApplied (.cons k0 v0 tl0) (baseData (.cons k0 v0 tl0) cs)))).bind fun d3 =>
      (addMappedList (.cons k0 v0 tl0) "education" "education" eduFieldsPG d3).bind fun d4 =>
      (addMappedList (.cons k0 v0 tl0) "certifications" "certifications" certItemFields d4).bind fun d5 =>
      (addMappedList (.cons k0 v0 tl0) "languages" "languages" langItemFields d5).bind fun d6 =>
      (addMappedList (.cons k0 v0 tl0) "achievements" "achievements" achItemFields d6).bind fun d7 =>
      .ok (.obj (.cons "data" (.obj d7) .nil)) := by
    simp only [parser_to_generator]
    rw [hci]
    rfl
  obtain ⟨d3, h3x⟩ := addMappedList_ok (.cons k0 v0 tl0) "experience" "experience" expFieldsPG
    (addVerbatimList (.cons k0 v0 tl0) "skills"
      (linksApplied (.cons k0 v0 tl0) (baseData (.cons k0 v0 tl0) cs))) hexp
  obtain ⟨d4, h4x⟩ := addMappedList_ok (.cons k0 v0 tl0) "education" "education" eduFieldsPG d3 hedu
  obtain ⟨d5, h5x⟩ := addMappedList_ok (.cons k0 v0 tl0) "certifications" "certifications" certItemFields d4 hcert
  obtain ⟨d6, h6x⟩ := addMappedList_ok (.cons k0 v0 tl0) "languages" "languages" langItemFields d5 hlang
  obtain ⟨d7, h7x⟩ := addMappedList_ok (.cons k0 v0 tl0) "achievements" "achievements" achItemFields d6 hach
  refine ⟨.obj (.cons "data" (.obj d7) .nil), ?_⟩
  rw [hbody, h3x]
  simp only [Except.bind]
  rw [h4x]
  simp only [Except.bind]
  rw [h5x]
  simp only [Except.bind]
  rw [h6x]
  simp only [Except.bind]
  rw [h7x]

/-- Claim C1 counterexample: the record whose data carries website
example.com (one website, no other links) does not round-trip: the link
matches neither heuristic keyword, so the composition drops the website
field entirely. -/
theorem C1_counterexample :
    ((generatorToParser (.obj (.cons "data" (.obj
        (.cons "firstName" (.str "John") (.cons "surname" (.str "Doe")
          (.cons "website" (.str "example.com") .nil)))) .nil))).bind
      parser_to_generator).map (fun out => dataField out "website") = .ok none ∧
    dataField (.obj (.cons "data" (.obj
        (.cons "firstName" (.str "John") (.cons "surname" (.str "Doe")
          (.cons "website" (.str "example.com") .nil)))) .nil)) "website"
      = some (.str "example.com") :=
  ⟨rfl, rfl⟩

/-- Claim C1 amended: for a GeneratorRecord whose data dict carries
firstName, surname, email, phone, address and profileStatement (any
values), whose skills are absent or a list, whose linkedin is absent or a
non-empty string containing linkedin case-insensitively, whose website is
absent or a non-empty string containing github or gitlab but not linkedin
case-insensitively, and whose mapped list subsections hold only dicts,
parser_to_generator composed with generator_to_parser reproduces all nine
fields exactly (presence and value). -/
theorem C1_roundtrip (k0 : String) (v0 : J) (tl0 ds : JEntries)
    (vf vs ve vp va vps : J)
    (hdata : (lookup "data" (JEntries.cons k0 v0 tl0)).getD (.obj .nil) = .obj ds)
    (hf : lookup "firstName" ds = some vf)
    (hs : lookup "surname" ds = some vs)
    (he : lookup "email" ds = some ve)
    (hp : lookup "phone" ds = some vp)
    (ha : lookup "address" ds = some va)
    (hst : lookup "profileStatement" ds = some vps)
    (hsk : lookup "skills" ds = none ∨ ∃ xs, lookup "skills" ds = some (.arr xs))
    (hld : lookup "linkedin" ds = none ∨
      ∃ sL, lookup "linkedin" ds = some (.str sL) ∧ ¬ sL = "" ∧
        strContainsLower "linkedin" sL = true)
    (hwb : lookup "website" ds = none ∨
      ∃ sW, lookup "website" ds = some (.str sW) ∧ ¬ sW = "" ∧
        strContainsLower "linkedin" sW = false ∧
        (strContainsLower "github" sW || strContainsLower "gitlab" sW) = true)
    (hexp : ∀ xs, lookup "experience" ds = some (.arr xs) → allObjs xs = true)
    (hedu : ∀ xs, lookup "education" ds = some (.arr xs) → allObjs xs = true)
    (hcert : ∀ xs, lookup "certifications" ds = some (.arr xs) → allObjs xs = true)
    (hlang : ∀ xs, lookup "languages" ds = some (.arr xs) → allObjs xs = true)
    (hach : ∀ xs, lookup "achievements" ds = some (.arr xs) → allObjs xs = true) :
    ∃ pr out, generatorToParser (.obj (.cons k0 v0 tl0)) = .ok pr ∧
      parser_to_generator pr = .ok out ∧
      dataField out "firstName" = some vf ∧
      dataField out "surname" = some vs ∧
      dataField out "email" = some ve ∧
      dataField out "phone" = some vp ∧
      dataField out "address" = some va ∧
      dataField out "profileStatement" = some vps ∧
      dataField out "skills" = lookup "skills" ds ∧
      dataField out "linkedin" = lookup "linkedin" ds ∧
      dataField out "website" = lookup "website" ds := by
  obtain ⟨pr, hpr⟩ := g2p_ok_of_subok k0 v0 tl0 ds hdata hexp hedu hcert hlang hach
  obtain ⟨p, hprshape, hcip, hpsp, hlp, hskp, hsubE, hsubD, hsubC, hsubL, hsubA⟩ :=
    g2p_fields k0 v0 tl0 ds pr hdata hpr
  subst hprshape
  have hlinked : ((match linksValue ds with
      | some (.arr ls) => lastSome linkedinMatch ls
      | _ => none).map J.str = lookup "linkedin" ds) ∧
      ((match linksValue ds with
      | some (.arr ls) => lastSome websiteMatch ls
      | _ => none).map J.str = lookup "website" ds) := by
    rcases hld with hln | ⟨sL, hlsome, hlne, hlc⟩ <;>
      rcases hwb with hwn | ⟨sW, hwsome, hwne, hwnl, hwc⟩
    · constructor <;> simp [linksValue, hln, hwn, jTruthy]
    · constructor <;>
        simp [linksValue, hln, hwsome, hwne, jTruthy, lastSome, linkedinMatch,
          websiteMatch, hwnl, hwc]
    · constructor <;>
        simp [linksValue, hlsome, hwn, hlne, jTruthy, lastSome, linkedinMatch,
          websiteMatch, hlc]
    · constructor <;>
        simp [linksValue, hlsome, hwsome, hlne, hwne, jTruthy, lastSome,
          linkedinMatch, websiteMatch, hlc, hwnl, hwc]
  cases p with
  | nil => exact Option.noConfusion hcip
  | cons q0 u0 qtl =>
  have hci2 : (lookup "contact_info" (JEntries.cons q0 u0 qtl)).getD (.obj .nil)
      = .obj (ciOf ds) := by
    rw [hcip]
    rfl
  obtain ⟨out, hout⟩ := p2g_ok_of_subok q0 u0 qtl (ciOf ds) hci2 hsubE hsubD hsubC hsubL hsubA
  obtain ⟨d, houtshape, hb1, hb2, hb3, hb4, hb5, hb6, hbL, hbW, hbS⟩ :=
    p2g_fields q0 u0 qtl (ciOf ds) out hci2 hout
  subst houtshape
  refine ⟨_, _, hpr, hout, ?_, ?_, ?_, ?_, ?_, ?_, ?_, ?_, ?_⟩
  · show lookup "firstName" d = some vf
    have hx : lookup "first_name" (ciOf ds) = some ((lookup "firstName" ds).getD (.str "")) := rfl
    rw [hb1, hx, Option.getD_some, hf, Option.getD_some]
  · show lookup "surname" d = some vs
    have hx : lookup "last_name" (ciOf ds) = some ((lookup "surname" ds).getD (.str "")) := rfl
    rw [hb2, hx, Option.getD_some, hs, Option.getD_some]
  · show lookup "email" d = some ve
    have hx : lookup "email" (ciOf ds) = some ((lookup "email" ds).getD (.str "")) := rfl
    rw [hb3, hx, Option.getD_some, he, Option.getD_some]
  · show lookup "phone" d = some vp
    have hx : lookup "phone" (ciOf ds) = some ((lookup "phone" ds).getD (.str "")) := rfl
    rw [hb4, hx, Option.getD_some, hp, Option.getD_some]
  · show lookup "address" d = some va
    have hx : lookup "location" (ciOf ds) = some ((lookup "address" ds).getD (.str "")) := rfl
    rw [hb5, hx, Option.getD_some, ha, Option.getD_some]
  · show lookup "profileStatement" d = some vps
    rw [hb6, hpsp, Option.getD_some, hst, Option.getD_some]
  · show lookup "skills" d = lookup "skills" ds
    rw [hbS, hskp]
    rcases hsk with hn | ⟨xs, hx2⟩
    · rw [hn]
    · rw [hx2]
  · show lookup "linkedin" d = lookup "linkedin" ds
    have hlo2 : linkedinOf (JEntries.cons q0 u0 qtl) =
        (match linksValue ds with
         | some (.arr ls) => lastSome linkedinMatch ls
         | _ => none) := by
      simp only [linkedinOf, hlp]
    rw [hbL, hlo2]
    exact hlinked.1
  · show lookup "website" d = lookup "website" ds
    have hwo2 : websiteOf (JEntries.cons q0 u0 qtl) =
        (match linksValue ds with
         | some (.arr ls) => lastSome websiteMatch ls
         | _ => none) := by
      simp only [websiteOf, hlp]
    rw [hbW, hwo2]
    exact hlinked.2

/-- A concrete generator-format data dict exercising all nine round-trip
fields. -/
def rtDemoData : JEntries :=
  .cons "firstName" (.str "John")
    (.cons "surname" (.str "Doe")
      (.cons "email" (.str "jd@x.com")
        (.cons "phone" (.str "+44 1")
          (.cons "address" (.str "London")
            (.cons "profileStatement" (.str "Statement")
              (.cons "skills" (.arr (.cons (.str "Python") .nil))
                (.cons "linkedin" (.str "Linkedin.com/in/x")
                  (.cons "website" (.str "GitHub.com/x") .nil))))))))

/-- Witness for C1 amended on a concrete record: the round trip reproduces
all nine fields, including the case-differing linkedin and github links. -/
theorem C1_roundtrip_witness :
    ∃ pr out, generatorToParser (.obj (.cons "data" (.obj rtDemoData) .nil)) = .ok pr ∧
      parser_to_generator pr = .ok out ∧
      dataField out "firstName" = some (.str "John") ∧
      dataField out "surname" = some (.str "Doe") ∧
      dataField out "email" = some (.str "jd@x.com") ∧
      dataField out "phone" = some (.str "+44 1") ∧
      dataField out "address" = some (.str "London") ∧
      dataField out "profileStatement" = some (.str "Statement") ∧
      dataField out "skills" = some (.arr (.cons (.str "Python") .nil)) ∧
      dataField out "linkedin" = some (.str "Linkedin.com/in/x") ∧
      dataField out "website" = some (.str "GitHub.com/x") := by
  exact C1_roundtrip "data" (.obj rtDemoData) .nil rtDemoData
    (.str "John") (.str "Doe") (.str "jd@x.com") (.str "+44 1") (.str "London")
    (.str "Statement")
    rfl rfl rfl rfl rfl rfl rfl
    (Or.inr ⟨.cons (.str "Python") .nil, rfl⟩)
    (Or.inr ⟨"Linkedin.com/in/x", rfl, by decide, rfl⟩)
    (Or.inr ⟨"GitHub.com/x", rfl, by decide, rfl, rfl⟩)
    (fun xs h => Option.noConfusion h)
    (fun xs h => Option.noConfusion h)
    (fun xs h => Option.noConfusion h)
    (fun xs h => Option.noConfusion h)
    (fun xs h => Option.noConfusion h)

/-! ## Anonymization lemmas -/

@[simp]
theorem ebind_ok {α β : Type} (a : α) (f : α → Except PyErr β) :
    (Except.ok a : Except PyErr α) >>= f = f a := rfl

@[simp]
theorem ebind_err {α β : Type} (e : PyErr) (f : α → Except PyErr β) :
    (Except.error e : Except PyErr α) >>= f = Except.error e := rfl

theorem lookup_some_hasKey (k : String) (v : J) : (es : JEntries) →
    lookup k es = some v → hasKey k es = true
  | .nil, h => by simp [lookup] at h
  | .cons k1 v1 tl, h => by
      by_cases h1 : k1 = k
      · simp [hasKey, h1]
      · simp only [lookup, if_neg h1] at h
        simp [hasKey, h1, lookup_some_hasKey k v tl h]

theorem hasKey_true_lookup (k : String) : (es : JEntries) →
    hasKey k es = true → ∃ v, lookup k es = some v
  | .nil, h => by simp [hasKey] at h
  | .cons k1 v1 tl, h => by
      by_cases h1 : k1 = k
      · exact ⟨v1, by simp [lookup, h1]⟩
      · simp only [hasKey, if_neg h1] at h
        obtain ⟨v, hv⟩ := hasKey_true_lookup k tl h
        exact ⟨v, by simp [lookup, h1, hv]⟩

theorem hasKey_setKey (k k1 : String) (v : J) : (es : JEntries) →
    hasKey k (setKey k1 v es) = if k1 = k then true else hasKey k es
  | .nil => by by_cases h : k1 = k <;> simp [setKey, hasKey, h]
  | .cons k2 v2 tl => by
      by_cases h2 : k2 = k1
      · subst h2
        by_cases h : k2 = k <;> simp [setKey, hasKey, h]
      · by_cases h : k2 = k
        · subst h
          have h1 : ¬ k1 = k2 := fun hh => h2 hh.symm
          simp [setKey, h2, hasKey, h1]
        · simp [setKey, h2, hasKey, h, hasKey_setKey k k1 v tl]

theorem str_empty_iff (s : String) : s = "" ↔ s.toList = [] := by
  constructor
  · intro h
    subst h
    rfl
  · intro h
    cases s with
    | mk data =>
        cases h
        rfl

/-- The initial the code builds for a truthy string (first character plus a
dot) or the placeholder plus a dot for a falsy one. -/
def pyInitial (s dflt : String) : String :=
  match s.toList with
  | [] => dflt ++ "."
  | c :: _ => String.mk [c] ++ "."

theorem anonContact_char (key lit : String) (pd : JEntries) :
    ∃ pd2, anonContact key lit (.obj pd) = .ok (.obj pd2) ∧
      (hasKey key pd = true → lookup key pd2 = some (.str lit)) ∧
      (hasKey key pd = false → lookup key pd2 = lookup key pd) ∧
      (∀ k, k ≠ key → lookup k pd2 = lookup k pd) ∧
      (∀ k, hasKey k pd2 = hasKey k pd) := by
  cases hk : hasKey key pd with
  | true =>
      refine ⟨setKey key (.str lit) pd, ?_, ?_, ?_, ?_, ?_⟩
      · simp only [anonContact, pyContainsV, ebind_ok]
        rw [hk]
        rfl
      · intro _
        rw [lookup_setKey]
        simp
      · intro hcon
        exact Bool.noConfusion hcon
      · intro k hkk
        rw [lookup_setKey, if_neg (show ¬ key = k from fun hh => hkk hh.symm)]
      · intro k
        rw [hasKey_setKey]
        by_cases h : key = k
        · subst h
          simp [hk]
        · simp [h]
  | false =>
      refine ⟨pd, ?_, ?_, ?_, ?_, ?_⟩
      · simp only [anonContact, pyContainsV, ebind_ok]
        rw [hk]
        rfl
      · intro hcon
        exact Bool.noConfusion hcon
      · intro _
        rfl
      · intro k _
        rfl
      · intro k
        rfl

theorem anonNames_not_both (pd : JEntries)
    (h : hasKey "firstName" pd = false ∨ hasKey "surname" pd = false) :
    anonNames (.obj pd) = .ok (.obj pd) := by
  rcases h with h | h
  · simp only [anonNames, pyContainsV, ebind_ok]
    rw [h]
    rfl
  · simp only [anonNames, pyContainsV, ebind_ok]
    rw [h]
    cases hc1 : hasKey "firstName" pd <;> rfl

theorem anonNames_both (pd : JEntries) (sf ss2 : String)
    (hf : lookup "firstName" pd = some (.str sf))
    (hsn : lookup "surname" pd = some (.str ss2)) :
    anonNames (.obj pd) = .ok (.obj (setKey "surname" (.str (pyInitial ss2 "B"))
      (setKey "firstName" (.str (pyInitial sf "A")) pd))) := by
  have hc1 := lookup_some_hasKey _ _ _ hf
  have hc2 := lookup_some_hasKey _ _ _ hsn
  by_cases hse : sf = ""
  · subst hse
    by_cases hss2 : ss2 = ""
    · subst hss2
      simp [anonNames, pyContainsV, hc1, hc2, pyGetItem, hf, hsn, jTruthy, pyFStr,
        pySetItemV, pyInitial, Except.bind]
    · rcases hl2 : ss2.data with _ | ⟨c2, rest2⟩
      · exact absurd ((str_empty_iff ss2).2 hl2) hss2
      · simp [anonNames, pyContainsV, hc1, hc2, pyGetItem, hf, hsn, jTruthy, hss2,
          pyIndex0, hl2, pyFStr, pySetItemV, pyInitial, Except.bind]
  · rcases hl : sf.data with _ | ⟨c, rest⟩
    · exact absurd ((str_empty_iff sf).2 hl) hse
    · by_cases hss2 : ss2 = ""
      · subst hss2
        simp [anonNames, pyContainsV, hc1, hc2, pyGetItem, hf, hsn, jTruthy, hse,
          pyIndex0, hl, pyFStr, pySetItemV, pyInitial, Except.bind]
      · rcases hl2 : ss2.data with _ | ⟨c2, rest2⟩
        · exact absurd ((str_empty_iff ss2).2 hl2) hss2
        · simp [anonNames, pyContainsV, hc1, hc2, pyGetItem, hf, hsn, jTruthy, hse, hss2,
            pyIndex0, hl, hl2, pyFStr, pySetItemV, pyInitial, Except.bind]

/-! ## Claim theorems: anonymization -/

/-- Claim C3 counterexample: on the record whose data carries only
firstName John, the claim as stated expects the placeholders J. and B.;
the code replaces neither name (the initials branch requires BOTH keys) and
adds no surname. -/
theorem C3_counterexample :
    (anonymize_cv_data (.obj (.cons "data" (.obj (.cons "firstName" (.str "John") .nil))
        .nil))).map (fun r => dataField r "firstName") = .ok (some (.str "John")) ∧
    (anonymize_cv_data (.obj (.cons "data" (.obj (.cons "firstName" (.str "John") .nil))
        .nil))).map (fun r => dataField r "surname") = .ok none :=
  ⟨rfl, rfl⟩

/-- Claim C3 amended: on an input mapping containing a data object (with
string name values where present), anonymization replaces firstName and
surname with initials exactly when BOTH keys are present (placeholders A./B.
for falsy values); when either is missing both are left untouched; each of
email, phone, address, linkedin is replaced by its fixed literal when
present; absent fields stay absent. -/
theorem C3_anonymize_fields (es ds : JEntries)
    (hdata : lookup "data" es = some (.obj ds))
    (hfs : ∀ v, lookup "firstName" ds = some v → ∃ s, v = .str s)
    (hss : ∀ v, lookup "surname" ds = some v → ∃ s, v = .str s) :
    ∃ ds5, anonymize_cv_data (.obj es) = .ok (.obj (setKey "data" (.obj ds5) es)) ∧
      (∀ sf ss2, lookup "firstName" ds = some (.str sf) →
        lookup "surname" ds = some (.str ss2) →
        lookup "firstName" ds5 = some (.str (pyInitial sf "A")) ∧
        lookup "surname" ds5 = some (.str (pyInitial ss2 "B"))) ∧
      ((hasKey "firstName" ds = false ∨ hasKey "surname" ds = false) →
        lookup "firstName" ds5 = lookup "firstName" ds ∧
        lookup "surname" ds5 = lookup "surname" ds) ∧
      (hasKey "email" ds = true →
        lookup "email" ds5 = some (.str "candidate@example.com")) ∧
      (hasKey "email" ds = false → lookup "email" ds5 = none) ∧
      (hasKey "phone" ds = true →
        lookup "phone" ds5 = some (.str "+44 XXX XXX XXXX")) ∧
      (hasKey "phone" ds = false → lookup "phone" ds5 = none) ∧
      (hasKey "address" ds = true →
        lookup "address" ds5 = some (.str "United Kingdom")) ∧
      (hasKey "address" ds = false → lookup "address" ds5 = none) ∧
      (hasKey "linkedin" ds = true →
        lookup "linkedin" ds5 = some (.str "linkedin.com/in/candidate")) ∧
      (hasKey "linkedin" ds = false → lookup "linkedin" ds5 = none) := by
  have hkd : hasKey "data" es = true := lookup_some_hasKey _ _ _ hdata
  -- the names step, with its lookup and key facts
  have hnames : ∃ nds, anonNames (.obj ds) = .ok (.obj nds) ∧
      (∀ sf ss2, lookup "firstName" ds = some (.str sf) →
        lookup "surname" ds = some (.str ss2) →
        lookup "firstName" nds = some (.str (pyInitial sf "A")) ∧
        lookup "surname" nds = some (.str (pyInitial ss2 "B"))) ∧
      ((hasKey "firstName" ds = false ∨ hasKey "surname" ds = false) →
        lookup "firstName" nds = lookup "firstName" ds ∧
        lookup "surname" nds = lookup "surname" ds) ∧
      (∀ k, k ≠ "firstName" → k ≠ "surname" → lookup k nds = lookup k ds) ∧
      (∀ k, hasKey k nds = hasKey k ds) := by
    by_cases hb1 : hasKey "firstName" ds = true
    · by_cases hb2 : hasKey "surname" ds = true
      · obtain ⟨vf, hvf⟩ := hasKey_true_lookup _ _ hb1
        obtain ⟨sf, hsf⟩ := hfs vf hvf
        subst hsf
        obtain ⟨vs, hvs⟩ := hasKey_true_lookup _ _ hb2
        obtain ⟨ss2, hss2⟩ := hss vs hvs
        subst hss2
        refine ⟨setKey "surname" (.str (pyInitial ss2 "B"))
          (setKey "firstName" (.str (pyInitial sf "A")) ds),
          anonNames_both ds sf ss2 hvf hvs, ?_, ?_, ?_, ?_⟩
        · intro sf2 ss3 hf2 hs2
          rw [hvf] at hf2
          rw [hvs] at hs2
          injection hf2 with hf3
          injection hs2 with hs3
          injection hf3 with hf4
          injection hs3 with hs4
          subst hf4
          subst hs4
          constructor
          · rw [lookup_setKey, if_neg (by decide), lookup_setKey, if_pos rfl]
          · rw [lookup_setKey, if_pos rfl]
        · intro hcon
          rcases hcon with hcon | hcon
          · exact Bool.noConfusion (hb1.symm.trans hcon)
          · exact Bool.noConfusion (hb2.symm.trans hcon)
        · intro k hk1 hk2
          rw [lookup_setKey, if_neg (fun hh => hk2 hh.symm),
              lookup_setKey, if_neg (fun hh => hk1 hh.symm)]
        · intro k
          rw [hasKey_setKey, hasKey_setKey]
          by_cases h1 : k = "surname"
          · subst h1
            simp [hb2]
          · by_cases h2 : k = "firstName"
            · subst h2
              simp [hb1]
            · have h1b : ¬ ("surname" : String) = k := fun hh => h1 hh.symm
              have h2b : ¬ ("firstName" : String) = k := fun hh => h2 hh.symm
              simp [h1b, h2b]
      · have hb2f : hasKey "surname" ds = false := by
          revert hb2
          cases hasKey "surname" ds <;> simp
        refine ⟨ds, anonNames_not_both ds (Or.inr hb2f), ?_, ?_, ?_, ?_⟩
        · intro sf2 ss3 _ hs2
          rw [lookup_some_hasKey _ _ _ hs2] at hb2f
          cases hb2f
        · intro _
          exact ⟨rfl, rfl⟩
        · intro k _ _
          rfl
        · intro k
          rfl
    · have hb1f : hasKey "firstName" ds = false := by
        revert hb1
        cases hasKey "firstName" ds <;> simp
      refine ⟨ds, anonNames_not_both ds (Or.inl hb1f), ?_, ?_, ?_, ?_⟩
      · intro sf2 ss3 hf2 _
        rw [lookup_some_hasKey _ _ _ hf2] at hb1f
        cases hb1f
      · intro _
        exact ⟨rfl, rfl⟩
      · intro k _ _
        rfl
      · intro k
        rfl
  obtain ⟨nds, hnameseq, hN1, hN2, hNpres, hNkeys⟩ := hnames
  obtain ⟨p2, he2, hePos, heNeg, hePres, heKeys⟩ :=
    anonContact_char "email" "candidate@example.com" nds
  obtain ⟨p3, he3, hpPos, hpNeg, hpPres, hpKeys⟩ :=
    anonContact_char "phone" "+44 XXX XXX XXXX" p2
  obtain ⟨p4, he4, haPos, haNeg, haPres, haKeys⟩ :=
    anonContact_char "address" "United Kingdom" p3
  obtain ⟨p5, he5, hlPos, hlNeg, hlPres, hlKeys⟩ :=
    anonContact_char "linkedin" "linkedin.com/in/candidate" p4
  have hpg : pyGetItem (.obj es) "data" = .ok (.obj ds) := by
    simp only [pyGetItem]
    rw [hdata]
  have hstep : anonymize_cv_data (.obj es) =
      (anonNames (.obj ds)).bind (fun pd1 =>
        (anonContact "email" "candidate@example.com" pd1).bind fun pd2 =>
        (anonContact "phone" "+44 XXX XXX XXXX" pd2).bind fun pd3 =>
        (anonContact "address" "United Kingdom" pd3).bind fun pd4 =>
        (anonContact "linkedin" "linkedin.com/in/candidate" pd4).bind fun pd5 =>
        pySetItemV (.obj es) "data" pd5) := by
    simp only [anonymize_cv_data, pyContainsV, ebind_ok]
    rw [hkd, if_pos rfl, hpg]
    rfl
  have hrun : anonymize_cv_data (.obj es) = .ok (.obj (setKey "data" (.obj p5) es)) := by
    rw [hstep, hnameseq]
    simp only [Except.bind]
    rw [he2]
    simp only [Except.bind]
    rw [he3]
    simp only [Except.bind]
    rw [he4]
    simp only [Except.bind]
    rw [he5]
    simp only [Except.bind]
    rfl
  refine ⟨p5, hrun, ?_, ?_, ?_, ?_, ?_, ?_, ?_, ?_, ?_, ?_⟩
  · intro sf ss2 hf2 hs2
    obtain ⟨ha1, ha2⟩ := hN1 sf ss2 hf2 hs2
    constructor
    · rw [hlPres _ (by decide), haPres _ (by decide), hpPres _ (by decide),
          hePres _ (by decide)]
      exact ha1
    · rw [hlPres _ (by decide), haPres _ (by decide), hpPres _ (by decide),
          hePres _ (by decide)]
      exact ha2
  · intro hmiss
    obtain ⟨ha1, ha2⟩ := hN2 hmiss
    constructor
    · rw [hlPres _ (by decide), haPres _ (by decide), hpPres _ (by decide),
          hePres _ (by decide)]
      exact ha1
    · rw [hlPres _ (by decide), haPres _ (by decide), hpPres _ (by decide),
          hePres _ (by decide)]
      exact ha2
  · intro hml
    rw [hlPres _ (by decide), haPres _ (by decide), hpPres _ (by decide)]
    exact hePos (by rw [hNkeys "email"]; exact hml)
  · intro hml
    rw [hlPres _ (by decide), haPres _ (by decide), hpPres _ (by decide),
        heNeg (by rw [hNkeys "email"]; exact hml),
        hNpres "email" (by decide) (by decide)]
    exact hasKey_false_lookup ds hml
  · intro hml
    rw [hlPres _ (by decide), haPres _ (by decide)]
    exact hpPos (by rw [heKeys "phone", hNkeys "phone"]; exact hml)
  · intro hml
    rw [hlPres _ (by decide), haPres _ (by decide),
        hpNeg (by rw [heKeys "phone", hNkeys "phone"]; exact hml),
        hePres _ (by decide), hNpres "phone" (by decide) (by decide)]
    exact hasKey_false_lookup ds hml
  · intro hml
    rw [hlPres _ (by decide)]
    exact haPos (by rw [hpKeys "address", heKeys "address", hNkeys "address"]; exact hml)
  · intro hml
    rw [hlPres _ (by decide),
        haNeg (by rw [hpKeys "address", heKeys "address", hNkeys "address"]; exact hml),
        hpPres _ (by decide), hePres _ (by decide),
        hNpres "address" (by decide) (by decide)]
    exact hasKey_false_lookup ds hml
  · intro hml
    exact hlPos (by rw [haKeys "linkedin", hpKeys "linkedin", heKeys "linkedin",
      hNkeys "linkedin"]; exact hml)
  · intro hml
    rw [hlNeg (by rw [haKeys "linkedin", hpKeys "linkedin", heKeys "linkedin",
          hNkeys "linkedin"]; exact hml),
        haPres _ (by decide), hpPres _ (by decide), hePres _ (by decide),
        hNpres "linkedin" (by decide) (by decide)]
    exact hasKey_false_lookup ds hml

/-- A concrete data dict for the anonymization witness. -/
def anonDemo : JEntries :=
  .cons "firstName" (.str "John")
    (.cons "surname" (.str "Doe")
      (.cons "email" (.str "john@x.com")
        (.cons "phone" (.str "+44 1")
          (.cons "address" (.str "London")
            (.cons "linkedin" (.str "linkedin.com/in/john") .nil)))))

/-- Witness for C3 amended at a record carrying all six personal fields. -/
theorem C3_anonymize_fields_witness :
    ∃ ds5, anonymize_cv_data (.obj (.cons "data" (.obj anonDemo) .nil)) =
        .ok (.obj (setKey "data" (.obj ds5) (.cons "data" (.obj anonDemo) .nil))) ∧
      (∀ sf ss2, lookup "firstName" anonDemo = some (.str sf) →
        lookup "surname" anonDemo = some (.str ss2) →
        lookup "firstName" ds5 = some (.str (pyInitial sf "A")) ∧
        lookup "surname" ds5 = some (.str (pyInitial ss2 "B"))) ∧
      ((hasKey "firstName" anonDemo = false ∨ hasKey "surname" anonDemo = false) →
        lookup "firstName" ds5 = lookup "firstName" anonDemo ∧
        lookup "surname" ds5 = lookup "surname" anonDemo) ∧
      (hasKey "email" anonDemo = true →
        lookup "email" ds5 = some (.str "candidate@example.com")) ∧
      (hasKey "email" anonDemo = false → lookup "email" ds5 = none) ∧
      (hasKey "phone" anonDemo = true →
        lookup "phone" ds5 = some (.str "+44 XXX XXX XXXX")) ∧
      (hasKey "phone" anonDemo = false → lookup "phone" ds5 = none) ∧
      (hasKey "address" anonDemo = true →
        lookup "address" ds5 = some (.str "United Kingdom")) ∧
      (hasKey "address" anonDemo = false → lookup "address" ds5 = none) ∧
      (hasKey "linkedin" anonDemo = true →
        lookup "linkedin" ds5 = some (.str "linkedin.com/in/candidate")) ∧
      (hasKey "linkedin" anonDemo = false → lookup "linkedin" ds5 = none) :=
  C3_anonymize_fields (.cons "data" (.obj anonDemo) .nil) anonDemo rfl
    (fun v hv => ⟨"John", by
      have hv2 : some (J.str "John") = some v := hv
      injection hv2 with h2
      exact h2.symm⟩)
    (fun v hv => ⟨"Doe", by
      have hv2 : some (J.str "Doe") = some v := hv
      injection hv2 with h2
      exact h2.symm⟩)

/-! ## Heap-frame development for prepare_template_context

prepare_template_context and anonymize_cv_data only write to addresses
allocated during the call (the shallow context copy and the deep copy made
by anonymize_cv_data); every address live before the call keeps its
object, so every value readable from the original request body before the
call is readable unchanged after it. -/

/-- The allocation frontier is honest: addresses at or above next are
unallocated. -/
def WFHeap (st : HState) : Prop := ∀ b, st.next ≤ b → st.heap b = none

/-- st extends st0: the frontier moved forward and every address live in
st0 holds the same object in st. -/
def HExt (st0 st : HState) : Prop :=
  st0.next ≤ st.next ∧ ∀ b, b < st0.next → st.heap b = st0.heap b

/-- A value holds no reference below the frontier n. -/
def ValFresh (n : Nat) (v : HVal) : Prop := ∀ a, v = HVal.ref a → n ≤ a

/-- An object holds no reference below the frontier n. -/
def ObjFresh (n : Nat) : HObj → Prop
  | .dict fs => ∀ k v, fieldsLookup k fs = some v → ValFresh n v
  | .arr xs => ∀ v, v ∈ xs → ValFresh n v

@[simp] theorem obind_some {α β : Type} (a : α) (f : α → Option β) :
    (some a >>= f : Option β) = f a := rfl

@[simp] theorem obind_none {α β : Type} (f : α → Option β) :
    (none >>= f : Option β) = none := rfl

theorem hext_refl (st : HState) : HExt st st :=
  ⟨Nat.le_refl _, fun _ _ => rfl⟩

theorem hext_trans {a b c : HState} (h1 : HExt a b) (h2 : HExt b c) :
    HExt a c :=
  ⟨Nat.le_trans h1.1 h2.1,
    fun x hx => (h2.2 x (Nat.lt_of_lt_of_le hx h1.1)).trans (h1.2 x hx)⟩

theorem valFresh_mono {n m : Nat} (h : n ≤ m) {v : HVal}
    (hv : ValFresh m v) : ValFresh n v :=
  fun a ha => Nat.le_trans h (hv a ha)

theorem alloc_hext (st : HState) (o : HObj) : HExt st (alloc st o).1 := by
  constructor
  · show st.next ≤ st.next + 1
    omega
  · intro b hb
    show (if b = st.next then some o else st.heap b) = st.heap b
    rw [if_neg (by omega)]

theorem alloc_wf (st : HState) (o : HObj) (hwf : WFHeap st) :
    WFHeap (alloc st o).1 := by
  intro b hb
  have hb2 : st.next + 1 ≤ b := hb
  show (if b = st.next then some o else st.heap b) = none
  rw [if_neg (by omega)]
  exact hwf b (by omega)

theorem alloc_heap_self (st : HState) (o : HObj) :
    (alloc st o).1.heap (alloc st o).2 = some o := by
  show (if st.next = st.next then some o else st.heap st.next) = some o
  rw [if_pos rfl]

theorem hSetItem_frame (st0 st st' : HState) (a : Nat) (k : String) (x : HVal)
    (hwf : WFHeap st) (hx : HExt st0 st) (ha : st0.next ≤ a)
    (hs : hSetItem st a k x = some st') : HExt st0 st' ∧ WFHeap st' := by
  unfold hSetItem at hs
  rcases hh : st.heap a with _ | o
  · rw [hh] at hs
    exact Option.noConfusion hs
  · rw [hh] at hs
    cases o with
    | arr xs => exact Option.noConfusion hs
    | dict fs =>
        have h2 : some
            (⟨fun b => if b = a then some (.dict (fieldsSet k x fs)) else st.heap b,
              st.next⟩ : HState) = some st' := hs
        injection h2 with h3
        subst h3
        have haa : a < st.next := by
          by_contra hc
          rw [hwf a (by omega)] at hh
          exact Option.noConfusion hh
        refine ⟨⟨hx.1, ?_⟩, ?_⟩
        · intro b hb
          show (if b = a then some (.dict (fieldsSet k x fs)) else st.heap b) = st0.heap b
          rw [if_neg (by omega)]
          exact hx.2 b hb
        · intro b hb
          have hb2 : st.next ≤ b := hb
          show (if b = a then some (.dict (fieldsSet k x fs)) else st.heap b) = none
          rw [if_neg (by omega)]
          exact hwf b hb2

theorem hSetItemV_frame (st0 st st' : HState) (pd : HVal) (k : String) (x : HVal)
    (hwf : WFHeap st) (hx : HExt st0 st) (hpd : ValFresh st0.next pd)
    (hs : hSetItemV st pd k x = some st') : HExt st0 st' ∧ WFHeap st' := by
  cases pd with
  | ref a =>
      have h2 : hSetItem st a k x = some st' := hs
      exact hSetItem_frame st0 st st' a k x hwf hx (hpd a rfl) h2
  | str s => exact Option.noConfusion hs
  | int n => exact Option.noConfusion hs
  | bool b => exact Option.noConfusion hs
  | null => exact Option.noConfusion hs

mutual

/-- deepcopy writes only at fresh addresses: the state extends, the
frontier stays honest, and the copied value refers only to addresses at
or above the old frontier, with the object there also fresh. -/
theorem deepcopyVal_frame : (fuel : Nat) → (st : HState) → (v : HVal) →
    (st' : HState) → (v' : HVal) → WFHeap st →
    deepcopyVal fuel st v = some (st', v') →
    HExt st st' ∧ WFHeap st' ∧ ValFresh st.next v' ∧
      (∀ a, v' = HVal.ref a → ∃ o, st'.heap a = some o ∧ ObjFresh st.next o)
  | 0, st, v, st', v', hwf, h => Option.noConfusion h
  | fuel + 1, st, v, st', v', hwf, h => by
      cases v with
      | ref a =>
          rw [deepcopyVal] at h
          rcases hh : st.heap a with _ | o
          · rw [hh] at h
            exact Option.noConfusion h
          · rw [hh] at h
            have h2 : (match deepcopyObj fuel st o with
              | some (st1, o1) =>
                  let p := alloc st1 o1
                  some (p.1, HVal.ref p.2)
              | none => none) = some (st', v') := h
            rcases hdo : deepcopyObj fuel st o with _ | p
            · rw [hdo] at h2
              exact Option.noConfusion h2
            · obtain ⟨st1, o1⟩ := p
              rw [hdo] at h2
              have h3 : some ((alloc st1 o1).1, HVal.ref (alloc st1 o1).2)
                  = some (st', v') := h2
              injection h3 with h4
              injection h4 with h5 h6
              subst h5
              subst h6
              obtain ⟨hx1, hw1, hof⟩ := deepcopyObj_frame fuel st o st1 o1 hwf hdo
              refine ⟨hext_trans hx1 (alloc_hext st1 o1), alloc_wf st1 o1 hw1, ?_, ?_⟩
              · intro a2 ha2
                injection ha2 with ha3
                subst ha3
                exact hx1.1
              · intro a2 ha2
                injection ha2 with ha3
                subst ha3
                exact ⟨o1, alloc_heap_self st1 o1, hof⟩
      | str s =>
          have h2 : some (st, HVal.str s) = some (st', v') := h
          injection h2 with h3
          injection h3 with h4 h5
          subst h4
          subst h5
          exact ⟨hext_refl st, hwf, fun a2 ha2 => HVal.noConfusion ha2,
            fun a2 ha2 => HVal.noConfusion ha2⟩
      | int n =>
          have h2 : some (st, HVal.int n) = some (st', v') := h
          injection h2 with h3
          injection h3 with h4 h5
          subst h4
          subst h5
          exact ⟨hext_refl st, hwf, fun a2 ha2 => HVal.noConfusion ha2,
            fun a2 ha2 => HVal.noConfusion ha2⟩
      | bool b =>
          have h2 : some (st, HVal.bool b) = some (st', v') := h
          injection h2 with h3
          injection h3 with h4 h5
          subst h4
          subst h5
          exact ⟨hext_refl st, hwf, fun a2 ha2 => HVal.noConfusion ha2,
            fun a2 ha2 => HVal.noConfusion ha2⟩
      | null =>
          have h2 : some (st, HVal.null) = some (st', v') := h
          injection h2 with h3
          injection h3 with h4 h5
          subst h4
          subst h5
          exact ⟨hext_refl st, hwf, fun a2 ha2 => HVal.noConfusion ha2,
            fun a2 ha2 => HVal.noConfusion ha2⟩
termination_by structural fuel _ _ _ _ _ _ => fuel

/-- deepcopy of one container: frame plus freshness of the copy. -/
theorem deepcopyObj_frame : (fuel : Nat) → (st : HState) → (o : HObj) →
    (st' : HState) → (o' : HObj) → WFHeap st →
    deepcopyObj fuel st o = some (st', o') →
    HExt st st' ∧ WFHeap st' ∧ ObjFresh st.next o'
  | 0, st, o, st', o', hwf, h => Option.noConfusion h
  | fuel + 1, st, o, st', o', hwf, h => by
      cases o with
      | dict fs =>
          rw [deepcopyObj] at h
          rcases hdf : deepcopyFields fuel st fs with _ | p
          · rw [hdf] at h
            exact Option.noConfusion h
          · obtain ⟨st1, fs1⟩ := p
            rw [hdf] at h
            have h2 : some (st1, HObj.dict fs1) = some (st', o') := h
            injection h2 with h3
            injection h3 with h4 h5
            subst h4
            subst h5
            obtain ⟨hx1, hw1, hff⟩ := deepcopyFields_frame fuel st fs st1 fs1 hwf hdf
            exact ⟨hx1, hw1, hff⟩
      | arr xs =>
          rw [deepcopyObj] at h
          rcases hde : deepcopyElems fuel st xs with _ | p
          · rw [hde] at h
            exact Option.noConfusion h
          · obtain ⟨st1, xs1⟩ := p
            rw [hde] at h
            have h2 : some (st1, HObj.arr xs1) = some (st', o') := h
            injection h2 with h3
            injection h3 with h4 h5
            subst h4
            subst h5
            obtain ⟨hx1, hw1, hee⟩ := deepcopyElems_frame fuel st xs st1 xs1 hwf hde
            exact ⟨hx1, hw1, hee⟩
termination_by structural fuel _ _ _ _ _ _ => fuel

/-- deepcopy of dict fields: frame plus freshness of every copied value. -/
theorem deepcopyFields_frame : (fuel : Nat) → (st : HState) →
    (fs : List (String × HVal)) → (st' : HState) → (fs' : List (String × HVal)) →
    WFHeap st → deepcopyFields fuel st fs = some (st', fs') →
    HExt st st' ∧ WFHeap st' ∧
      ∀ k v, fieldsLookup k fs' = some v → ValFresh st.next v
  | 0, st, fs, st', fs', hwf, h => Option.noConfusion h
  | fuel + 1, st, [], st', fs', hwf, h => by
      have h2 : some (st, ([] : List (String × HVal))) = some (st', fs') := h
      injection h2 with h3
      injection h3 with h4 h5
      subst h4
      subst h5
      exact ⟨hext_refl st, hwf, fun k v hkv => Option.noConfusion hkv⟩
  | fuel + 1, st, (k, v) :: tl, st', fs', hwf, h => by
      rw [deepcopyFields] at h
      rcases hdv : deepcopyVal fuel st v with _ | p
      · rw [hdv] at h
        exact Option.noConfusion h
      · obtain ⟨st1, v1⟩ := p
        rw [hdv] at h
        have h2 : (match deepcopyFields fuel st1 tl with
          | some (st2, tl2) => some (st2, (k, v1) :: tl2)
          | none => none) = some (st', fs') := h
        rcases hdt : deepcopyFields fuel st1 tl with _ | q
        · rw [hdt] at h2
          exact Option.noConfusion h2
        · obtain ⟨st2, tl2⟩ := q
          rw [hdt] at h2
          have h3 : some (st2, (k, v1) :: tl2) = some (st', fs') := h2
          injection h3 with h4
          injection h4 with h5 h6
          subst h5
          subst h6
          obtain ⟨hx1, hw1, hf1, _⟩ := deepcopyVal_frame fuel st v st1 v1 hwf hdv
          obtain ⟨hx2, hw2, hf2⟩ := deepcopyFields_frame fuel st1 tl st2 tl2 hw1 hdt
          refine ⟨hext_trans hx1 hx2, hw2, ?_⟩
          intro k2 v2 hkv
          have hkv2 : (if k = k2 then some v1 else fieldsLookup k2 tl2) = some v2 := hkv
          by_cases hk : k = k2
          · rw [if_pos hk] at hkv2
            injection hkv2 with h7
            subst h7
            exact hf1
          · rw [if_neg hk] at hkv2
            exact valFresh_mono hx1.1 (hf2 k2 v2 hkv2)
termination_by structural fuel _ _ _ _ _ _ => fuel

/-- deepcopy of list elements: frame plus freshness of every copied
element. -/
theorem deepcopyElems_frame : (fuel : Nat) → (st : HState) → (xs : List HVal) →
    (st' : HState) → (xs' : List HVal) → WFHeap st →
    deepcopyElems fuel st xs = some (st', xs') →
    HExt st st' ∧ WFHeap st' ∧ ∀ v2, v2 ∈ xs' → ValFresh st.next v2
  | 0, st, xs, st', xs', hwf, h => Option.noConfusion h
  | fuel + 1, st, [], st', xs', hwf, h => by
      have h2 : some (st, ([] : List HVal)) = some (st', xs') := h
      injection h2 with h3
      injection h3 with h4 h5
      subst h4
      subst h5
      exact ⟨hext_refl st, hwf, fun v2 hv2 => absurd hv2 (List.not_mem_nil v2)⟩
  | fuel + 1, st, v :: tl, st', xs', hwf, h => by
      rw [deepcopyElems] at h
      rcases hdv : deepcopyVal fuel st v with _ | p
      · rw [hdv] at h
        exact Option.noConfusion h
      · obtain ⟨st1, v1⟩ := p
        rw [hdv] at h
        have h2 : (match deepcopyElems fuel st1 tl with
          | some (st2, tl2) => some (st2, v1 :: tl2)
          | none => none) = some (st', xs') := h
        rcases hdt : deepcopyElems fuel st1 tl with _ | q
        · rw [hdt] at h2
          exact Option.noConfusion h2
        · obtain ⟨st2, tl2⟩ := q
          rw [hdt] at h2
          have h3 : some (st2, v1 :: tl2) = some (st', xs') := h2
          injection h3 with h4
          injection h4 with h5 h6
          subst h5
          subst h6
          obtain ⟨hx1, hw1, hf1, _⟩ := deepcopyVal_frame fuel st v st1 v1 hwf hdv
          obtain ⟨hx2, hw2, hf2⟩ := deepcopyElems_frame fuel st1 tl st2 tl2 hw1 hdt
          refine ⟨hext_trans hx1 hx2, hw2, ?_⟩
          intro v2 hv2
          rcases List.mem_cons.mp hv2 with hv3 | hv3
          · subst hv3
            exact hf1
          · exact valFresh_mono hx1.1 (hf2 v2 hv3)
termination_by structural fuel _ _ _ _ _ _ => fuel

end

mutual

/-- Reading is stable under heap extension: a value tree readable in a
well-formed state is readable unchanged in any extending state. -/
theorem readVal_frame : (fuel : Nat) → (st st' : HState) → (v : HVal) →
    (t : J) → WFHeap st → HExt st st' →
    readVal fuel st v = some t → readVal fuel st' v = some t
  | 0, st, st', v, t, hwf, hx, h => Option.noConfusion h
  | fuel + 1, st, st', v, t, hwf, hx, h => by
      cases v with
      | str s => exact h
      | int n => exact h
      | bool b => exact h
      | null => exact h
      | ref a =>
          rw [readVal] at h ⊢
          rcases hh : st.heap a with _ | o
          · rw [hh] at h
            exact Option.noConfusion h
          · rw [hh] at h
            have ha : a < st.next := by
              by_contra hc
              rw [hwf a (by omega)] at hh
              exact Option.noConfusion hh
            rw [hx.2 a ha, hh]
            exact readObj_frame fuel st st' o t hwf hx h
termination_by structural fuel _ _ _ _ _ _ _ => fuel

/-- Reading one container is stable under heap extension. -/
theorem readObj_frame : (fuel : Nat) → (st st' : HState) → (o : HObj) →
    (t : J) → WFHeap st → HExt st st' →
    readObj fuel st o = some t → readObj fuel st' o = some t
  | 0, st, st', o, t, hwf, hx, h => Option.noConfusion h
  | fuel + 1, st, st', o, t, hwf, hx, h => by
      cases o with
      | dict fs =>
          rw [readObj] at h ⊢
          rcases hf : readFields fuel st fs with _ | es
          · rw [hf] at h
            exact Option.noConfusion h
          · rw [hf] at h
            rw [readFields_frame fuel st st' fs es hwf hx hf]
            exact h
      | arr xs =>
          rw [readObj] at h ⊢
          rcases he : readElems fuel st xs with _ | l
          · rw [he] at h
            exact Option.noConfusion h
          · rw [he] at h
            rw [readElems_frame fuel st st' xs l hwf hx he]
            exact h
termination_by structural fuel _ _ _ _ _ _ _ => fuel

/-- Reading dict fields is stable under heap extension. -/
theorem readFields_frame : (fuel : Nat) → (st st' : HState) →
    (fs : List (String × HVal)) → (es : JEntries) → WFHeap st → HExt st st' →
    readFields fuel st fs = some es → readFields fuel st' fs = some es
  | 0, st, st', fs, es, hwf, hx, h => Option.noConfusion h
  | fuel + 1, st, st', [], es, hwf, hx, h => h
  | fuel + 1, st, st', (k, v) :: tl, es, hwf, hx, h => by
      rw [readFields] at h ⊢
      rcases hv : readVal fuel st v with _ | j
      · rw [hv] at h
        rcases hr : readFields fuel st tl with _ | rest
        · rw [hr] at h
          exact Option.noConfusion h
        · rw [hr] at h
          exact Option.noConfusion h
      · rw [hv] at h
        rcases hr : readFields fuel st tl with _ | rest
        · rw [hr] at h
          exact Option.noConfusion h
        · rw [hr] at h
          rw [readVal_frame fuel st st' v j hwf hx hv,
            readFields_frame fuel st st' tl rest hwf hx hr]
          exact h
termination_by structural fuel _ _ _ _ _ _ _ => fuel

/-- Reading list elements is stable under heap extension. -/
theorem readElems_frame : (fuel : Nat) → (st st' : HState) →
    (xs : List HVal) → (l : JList) → WFHeap st → HExt st st' →
    readElems fuel st xs = some l → readElems fuel st' xs = some l
  | 0, st, st', xs, l, hwf, hx, h => Option.noConfusion h
  | fuel + 1, st, st', [], l, hwf, hx, h => h
  | fuel + 1, st, st', v :: tl, l, hwf, hx, h => by
      rw [readElems] at h ⊢
      rcases hv : readVal fuel st v with _ | j
      · rw [hv] at h
        rcases hr : readElems fuel st tl with _ | rest
        · rw [hr] at h
          exact Option.noConfusion h
        · rw [hr] at h
          exact Option.noConfusion h
      · rw [hv] at h
        rcases hr : readElems fuel st tl with _ | rest
        · rw [hr] at h
          exact Option.noConfusion h
        · rw [hr] at h
          rw [readVal_frame fuel st st' v j hwf hx hv,
            readElems_frame fuel st st' tl rest hwf hx hr]
          exact h
termination_by structural fuel _ _ _ _ _ _ _ => fuel

end

/-- A contact-field redaction block writes only through pd, a value fresh
over st0, so the state keeps extending st0. -/
theorem anonContactH_frame (key lit : String) (st0 st st' : HState) (pd : HVal)
    (hwf : WFHeap st) (hx : HExt st0 st) (hpd : ValFresh st0.next pd)
    (h : anonContactH key lit st pd = some st') :
    HExt st0 st' ∧ WFHeap st' := by
  unfold anonContactH at h
  rcases hc : hContains st pd key with _ | c
  · rw [hc] at h
    exact Option.noConfusion h
  · rw [hc] at h
    simp only [obind_some] at h
    cases c
    · rw [if_neg (fun hh => Bool.noConfusion hh)] at h
      injection h with h2
      subst h2
      exact ⟨hx, hwf⟩
    · rw [if_pos rfl] at h
      exact hSetItemV_frame st0 st st' pd key (.str lit) hwf hx hpd h

/-- The two name assignments write only through pd, a value fresh over
st0, so the state keeps extending st0. -/
theorem anonSetNames_frame (st0 st st' : HState) (pd i1 i2 : HVal)
    (hwf : WFHeap st) (hx : HExt st0 st) (hpd : ValFresh st0.next pd)
    (h : anonSetNames st pd i1 i2 = some st') :
    HExt st0 st' ∧ WFHeap st' := by
  unfold anonSetNames at h
  rcases hf1 : hFStr i1 with _ | s1
  · rw [hf1] at h
    exact Option.noConfusion h
  · rw [hf1] at h
    simp only [obind_some] at h
    rcases hf2 : hFStr i2 with _ | s2
    · rw [hf2] at h
      exact Option.noConfusion h
    · rw [hf2] at h
      simp only [obind_some] at h
      rcases hsa : hSetItemV st pd "firstName" (.str (s1 ++ ".")) with _ | sta
      · rw [hsa] at h
        exact Option.noConfusion h
      · rw [hsa] at h
        simp only [obind_some] at h
        obtain ⟨hxa, hwa⟩ :=
          hSetItemV_frame st0 st sta pd "firstName" (.str (s1 ++ ".")) hwf hx hpd hsa
        exact hSetItemV_frame st0 sta st' pd "surname" (.str (s2 ++ ".")) hwa hxa hpd h

/-- The name-initials block writes only through pd, a value fresh over
st0, so the state keeps extending st0. -/
theorem anonNamesH_frame (st0 st st' : HState) (pd : HVal)
    (hwf : WFHeap st) (hx : HExt st0 st) (hpd : ValFresh st0.next pd)
    (h : anonNamesH st pd = some st') :
    HExt st0 st' ∧ WFHeap st' := by
  unfold anonNamesH at h
  rcases hc1 : hContains st pd "firstName" with _ | c1
  · rw [hc1] at h
    exact Option.noConfusion h
  · rw [hc1] at h
    simp only [obind_some] at h
    rcases hc2 : hContains st pd "surname" with _ | c2
    · rw [hc2] at h
      exact Option.noConfusion h
    · rw [hc2] at h
      simp only [obind_some] at h
      rcases hcc : c1 && c2 with _ | _
      · rw [hcc] at h
        rw [if_neg (fun hh => Bool.noConfusion hh)] at h
        injection h with h2
        subst h2
        exact ⟨hx, hwf⟩
      · rw [hcc] at h
        rw [if_pos rfl] at h
        rcases hfv : hGetItem st pd "firstName" with _ | jf
        · rw [hfv] at h
          exact Option.noConfusion h
        · rw [hfv] at h
          simp only [obind_some] at h
          rcases htf : hTruthy st jf with _ | bf
          · rw [htf] at h
            exact Option.noConfusion h
          · rw [htf] at h
            simp only [obind_some] at h
            cases bf
            · rw [if_neg (fun hh => Bool.noConfusion hh)] at h
              rcases hsv : hGetItem st pd "surname" with _ | js
              · rw [hsv] at h
                exact Option.noConfusion h
              · rw [hsv] at h
                simp only [obind_some] at h
                rcases hts : hTruthy st js with _ | bs
                · rw [hts] at h
                  exact Option.noConfusion h
                · rw [hts] at h
                  simp only [obind_some] at h
                  cases bs
                  · rw [if_neg (fun hh => Bool.noConfusion hh)] at h
                    exact anonSetNames_frame st0 st st' pd (.str "A") (.str "B")
                      hwf hx hpd h
                  · rw [if_pos rfl] at h
                    rcases hy2 : hIndex0 st js with _ | i2
                    · rw [hy2] at h
                      exact Option.noConfusion h
                    · rw [hy2] at h
                      simp only [obind_some] at h
                      exact anonSetNames_frame st0 st st' pd (.str "A") i2
                        hwf hx hpd h
            · rw [if_pos rfl] at h
              rcases hy1 : hIndex0 st jf with _ | i1
              · rw [hy1] at h
                exact Option.noConfusion h
              · rw [hy1] at h
                simp only [obind_some] at h
                rcases hsv : hGetItem st pd "surname" with _ | js
                · rw [hsv] at h
                  exact Option.noConfusion h
                · rw [hsv] at h
                  simp only [obind_some] at h
                  rcases hts : hTruthy st js with _ | bs
                  · rw [hts] at h
                    exact Option.noConfusion h
                  · rw [hts] at h
                    simp only [obind_some] at h
                    cases bs
                    · rw [if_neg (fun hh => Bool.noConfusion hh)] at h
                      exact anonSetNames_frame st0 st st' pd i1 (.str "B")
                        hwf hx hpd h
                    · rw [if_pos rfl] at h
                      rcases hy2 : hIndex0 st js with _ | i2
                      · rw [hy2] at h
                        exact Option.noConfusion h
                      · rw [hy2] at h
                        simp only [obind_some] at h
                        exact anonSetNames_frame st0 st st' pd i1 i2
                          hwf hx hpd h

/-- anonymize_cv_data writes only into its deep copy: the state extends,
the frontier stays honest, and the returned copy refers only to fresh
addresses. -/
theorem anonymizeH_frame (fuel : Nat) (st : HState) (data : HVal)
    (st' : HState) (v' : HVal) (hwf : WFHeap st)
    (h : anonymizeH fuel st data = some (st', v')) :
    HExt st st' ∧ WFHeap st' ∧ ValFresh st.next v' := by
  unfold anonymizeH at h
  rcases hdc : deepcopyVal fuel st data with _ | p
  · rw [hdc] at h
    exact Option.noConfusion h
  · obtain ⟨st1, anon⟩ := p
    rw [hdc] at h
    simp only [obind_some] at h
    obtain ⟨hx1, hw1, hfr, hC⟩ := deepcopyVal_frame fuel st data st1 anon hwf hdc
    rcases hc : hContains st1 anon "data" with _ | c
    · rw [hc] at h
      exact Option.noConfusion h
    · rw [hc] at h
      simp only [obind_some] at h
      cases c
      · rw [if_neg (fun hh => Bool.noConfusion hh)] at h
        injection h with h2
        injection h2 with h3 h4
        subst h3
        subst h4
        exact ⟨hx1, hw1, hfr⟩
      · rw [if_pos rfl] at h
        rcases hpd : hGetItem st1 anon "data" with _ | pd
        · rw [hpd] at h
          exact Option.noConfusion h
        · rw [hpd] at h
          simp only [obind_some] at h
          rcases hN : anonNamesH st1 pd with _ | st2
          · rw [hN] at h
            exact Option.noConfusion h
          · rw [hN] at h
            simp only [obind_some] at h
            rcases hE : anonContactH "email" "candidate@example.com" st2 pd with _ | st3
            · rw [hE] at h
              exact Option.noConfusion h
            · rw [hE] at h
              simp only [obind_some] at h
              rcases hP : anonContactH "phone" "+44 XXX XXX XXXX" st3 pd with _ | st4
              · rw [hP] at h
                exact Option.noConfusion h
              · rw [hP] at h
                simp only [obind_some] at h
                rcases hA : anonContactH "address" "United Kingdom" st4 pd with _ | st5
                · rw [hA] at h
                  exact Option.noConfusion h
                · rw [hA] at h
                  simp only [obind_some] at h
                  rcases hL : anonContactH "linkedin" "linkedin.com/in/candidate" st5 pd
                      with _ | st6
                  · rw [hL] at h
                    exact Option.noConfusion h
                  · rw [hL] at h
                    simp only [obind_some] at h
                    rcases hS : hSetItemV st6 anon "data" pd with _ | st7
                    · rw [hS] at h
                      exact Option.noConfusion h
                    · rw [hS] at h
                      simp only [obind_some] at h
                      injection h with h2
                      injection h2 with h3 h4
                      subst h3
                      subst h4
                      cases anon with
                      | str s => exact Option.noConfusion hpd
                      | int n => exact Option.noConfusion hpd
                      | bool b => exact Option.noConfusion hpd
                      | null => exact Option.noConfusion hpd
                      | ref g =>
                          obtain ⟨o2, ho2, hof⟩ := hC g rfl
                          have hpd2 : (match st1.heap g with
                            | some (.dict fs2) => fieldsLookup "data" fs2
                            | _ => none) = some pd := hpd
                          rw [ho2] at hpd2
                          cases o2 with
                          | arr xs => exact Option.noConfusion hpd2
                          | dict fs2 =>
                              have hpd3 : fieldsLookup "data" fs2 = some pd := hpd2
                              have hpdf : ValFresh st.next pd := hof "data" pd hpd3
                              obtain ⟨hxN, hwN⟩ :=
                                anonNamesH_frame st st1 st2 pd hw1 hx1 hpdf hN
                              obtain ⟨hxE, hwE⟩ :=
                                anonContactH_frame "email" "candidate@example.com"
                                  st st2 st3 pd hwN hxN hpdf hE
                              obtain ⟨hxP, hwP⟩ :=
                                anonContactH_frame "phone" "+44 XXX XXX XXXX"
                                  st st3 st4 pd hwE hxE hpdf hP
                              obtain ⟨hxA, hwA⟩ :=
                                anonContactH_frame "address" "United Kingdom"
                                  st st4 st5 pd hwP hxP hpdf hA
                              obtain ⟨hxL, hwL⟩ :=
                                anonContactH_frame "linkedin" "linkedin.com/in/candidate"
                                  st st5 st6 pd hwA hxA hpdf hL
                              obtain ⟨hxS, hwS⟩ :=
                                hSetItemV_frame st st6 st7 (.ref g) "data" pd
                                  hwL hxL hfr hS
                              exact ⟨hxS, hwS, hfr⟩

/-- A guarded item assignment through a fresh value keeps the frame. -/
theorem setIf_frame (st0 st : HState) (b : Bool) (pd : HVal) (k : String)
    (x : HVal) (st' : HState)
    (hwf : WFHeap st) (hx : HExt st0 st) (hpd : ValFresh st0.next pd)
    (hs : setIf b st pd k x = some st') :
    HExt st0 st' ∧ WFHeap st' := by
  unfold setIf at hs
  cases b
  · rw [if_neg (fun hh => Bool.noConfusion hh)] at hs
    injection hs with h2
    subst h2
    exact ⟨hx, hwf⟩
  · rw [if_pos rfl] at hs
    exact hSetItemV_frame st0 st st' pd k x hwf hx hpd hs

/-- The guarded anonymization step keeps the frame, and the context it
returns is fresh over st0. -/
theorem anonIf_frame (fuel : Nat) (st0 st : HState) (b : Bool) (ctxa : Nat)
    (st' : HState) (v' : HVal)
    (hwf : WFHeap st) (hx : HExt st0 st) (hctxa : st0.next ≤ ctxa)
    (hs : anonIf fuel b st (.ref ctxa) = some (st', v')) :
    HExt st0 st' ∧ WFHeap st' ∧ ValFresh st0.next v' := by
  unfold anonIf at hs
  cases b
  · rw [if_neg (fun hh => Bool.noConfusion hh)] at hs
    injection hs with h2
    injection h2 with h3 h4
    subst h3
    subst h4
    refine ⟨hx, hwf, ?_⟩
    intro a2 ha2
    injection ha2 with h5
    omega
  · rw [if_pos rfl] at hs
    obtain ⟨hxa, hwa, hfa⟩ := anonymizeH_frame fuel st (.ref ctxa) st' v' hwf hs
    exact ⟨hext_trans hx hxa, hwa, fun a2 ha2 => Nat.le_trans hx.1 (hfa a2 ha2)⟩

/-- The guarded recruiterProfile copy keeps the frame. -/
theorem copyRecruiterIf_frame (st0 st : HState) (b : Bool) (rb : Nat)
    (ctx2 : HVal) (st' : HState)
    (hwf : WFHeap st) (hx : HExt st0 st) (hctx : ValFresh st0.next ctx2)
    (hs : copyRecruiterIf b st rb ctx2 = some st') :
    HExt st0 st' ∧ WFHeap st' := by
  unfold copyRecruiterIf at hs
  cases b
  · rw [if_neg (fun hh => Bool.noConfusion hh)] at hs
    injection hs with h2
    subst h2
    exact ⟨hx, hwf⟩
  · rw [if_pos rfl] at hs
    rcases hv : hGetItem st (.ref rb) "recruiterProfile" with _ | v
    · rw [hv] at hs
      exact Option.noConfusion hs
    · rw [hv] at hs
      simp only [obind_some] at hs
      exact hSetItemV_frame st0 st st' ctx2 "recruiterProfile" v hwf hx hctx hs

/-- The tail of prepare_template_context writes only at the context copy
and at addresses allocated during the call: the state extends st0. -/
theorem prepareFromCopy_frame (fuel : Nat) (st0 st1 : HState)
    (ctxa reqBody : Nat) (so sv anonFlag : HVal) (st' : HState) (c' : HVal)
    (hwf : WFHeap st1) (hx : HExt st0 st1) (hctxa : st0.next ≤ ctxa)
    (h : prepareFromCopy fuel st1 ctxa reqBody so sv anonFlag = some (st', c')) :
    HExt st0 st' ∧ WFHeap st' := by
  have hfref : ValFresh st0.next (HVal.ref ctxa) := by
    intro a2 ha2
    injection ha2 with h5
    omega
  unfold prepareFromCopy at h
  rcases ht1 : hTruthy st1 so with _ | tso
  · rw [ht1] at h
    exact Option.noConfusion h
  · rw [ht1] at h
    simp only [obind_some] at h
    rcases hs2 : setIf tso st1 (.ref ctxa) "sectionOrder" so with _ | st2
    · rw [hs2] at h
      exact Option.noConfusion h
    · rw [hs2] at h
      simp only [obind_some] at h
      obtain ⟨hx2, hw2⟩ := setIf_frame st0 st1 tso (.ref ctxa) "sectionOrder" so st2
        hwf hx hfref hs2
      rcases ht2 : hTruthy st2 sv with _ | tsv
      · rw [ht2] at h
        exact Option.noConfusion h
      · rw [ht2] at h
        simp only [obind_some] at h
        rcases hs3 : setIf tsv st2 (.ref ctxa) "sectionVisibility" sv with _ | st3
        · rw [hs3] at h
          exact Option.noConfusion h
        · rw [hs3] at h
          simp only [obind_some] at h
          obtain ⟨hx3, hw3⟩ := setIf_frame st0 st2 tsv (.ref ctxa) "sectionVisibility"
            sv st3 hw2 hx2 hfref hs3
          rcases ht3 : hTruthy st3 anonFlag with _ | tan
          · rw [ht3] at h
            exact Option.noConfusion h
          · rw [ht3] at h
            simp only [obind_some] at h
            rcases hs4 : anonIf fuel tan st3 (.ref ctxa) with _ | q
            · rw [hs4] at h
              exact Option.noConfusion h
            · obtain ⟨st4, ctx2⟩ := q
              rw [hs4] at h
              simp only [obind_some] at h
              obtain ⟨hx4, hw4, hf4⟩ := anonIf_frame fuel st0 st3 tan ctxa st4 ctx2
                hw3 hx3 hctxa hs4
              rcases hc : hContains st4 (.ref reqBody) "recruiterProfile" with _ | c
              · rw [hc] at h
                exact Option.noConfusion h
              · rw [hc] at h
                simp only [obind_some] at h
                rcases hs5 : copyRecruiterIf c st4 reqBody ctx2 with _ | st5
                · rw [hs5] at h
                  exact Option.noConfusion h
                · rw [hs5] at h
                  simp only [obind_some] at h
                  obtain ⟨hx5, hw5⟩ := copyRecruiterIf_frame st0 st4 c reqBody ctx2 st5
                    hw4 hx4 hf4 hs5
                  injection h with h2
                  injection h2 with h3 h4
                  subst h3
                  exact ⟨hx5, hw5⟩

/-- prepare_template_context writes only at addresses allocated during
the call: the final state extends the initial one. -/
theorem prepareTemplateContextH_frame (fuel : Nat) (st : HState)
    (reqBody : Nat) (so sv anonFlag : HVal) (st' : HState) (c' : HVal)
    (hwf : WFHeap st)
    (h : prepareTemplateContextH fuel st reqBody so sv anonFlag = some (st', c')) :
    HExt st st' ∧ WFHeap st' := by
  unfold prepareTemplateContextH at h
  rcases hm : reqFields st reqBody with _ | fs
  · rw [hm] at h
    exact Option.noConfusion h
  · rw [hm] at h
    simp only [obind_some] at h
    exact prepareFromCopy_frame fuel st (alloc st (.dict fs)).1
      (alloc st (.dict fs)).2 reqBody so sv anonFlag st' c'
      (alloc_wf st (.dict fs) hwf) (alloc_hext st (.dict fs)) (Nat.le_refl st.next) h

/-- A two-object demonstration heap: the request body at address 0, its
data dict at address 1. -/
def c7Heap : HState :=
  ⟨fun b => if b = 0 then some (.dict [("data", .ref 1)])
    else if b = 1 then some (.dict
      [("firstName", .str "John"), ("surname", .str "Smith"),
       ("email", .str "j@example.com")]) else none, 2⟩

/-- The value tree of the demonstration request body. -/
def c7Orig : J :=
  .obj (.cons "data" (.obj (.cons "firstName" (.str "John")
    (.cons "surname" (.str "Smith")
      (.cons "email" (.str "j@example.com") .nil)))) .nil)

/-- C7: anonymization never mutates the caller's original record.  For
every well-formed heap and every request-body record in it, if
prepare_template_context runs with the anonymization flag set, the value
tree readable from the original record before the call is readable,
unchanged, after it: anonymize_cv_data mutates only its deep copy and
prepare_template_context writes only into the freshly allocated shallow
context copy. -/
theorem C7_prepare_frame (fuelR fuelP : Nat) (st : HState) (reqBody : Nat)
    (so sv : HVal) (t : J) (st' : HState) (c : HVal)
    (hwf : WFHeap st)
    (hread : readVal fuelR st (.ref reqBody) = some t)
    (hrun : prepareTemplateContextH fuelP st reqBody so sv (.bool true)
      = some (st', c)) :
    readVal fuelR st' (.ref reqBody) = some t := by
  obtain ⟨hx, _⟩ := prepareTemplateContextH_frame fuelP st reqBody so sv
    (.bool true) st' c hwf hrun
  exact readVal_frame fuelR st st' (.ref reqBody) t hwf hx hread

/-- Witness: on the concrete two-object heap, preparing the context with
anonymization enabled succeeds and the original record still reads back
as the same value tree. -/
theorem C7_prepare_frame_witness :
    WFHeap c7Heap ∧ readVal 9 c7Heap (.ref 0) = some c7Orig ∧
    ∃ p, prepareTemplateContextH 40 c7Heap 0 .null .null (.bool true) = some p ∧
      readVal 9 p.1 (.ref 0) = some c7Orig := by
  have hwf : WFHeap c7Heap := by
    intro b hb
    have hb2 : 2 ≤ b := hb
    show (if b = 0 then some (HObj.dict [("data", HVal.ref 1)])
      else if b = 1 then some (HObj.dict
        [("firstName", HVal.str "John"), ("surname", HVal.str "Smith"),
         ("email", HVal.str "j@example.com")]) else none) = none
    rw [if_neg (by omega), if_neg (by omega)]
  have hread : readVal 9 c7Heap (.ref 0) = some c7Orig := rfl
  have hIs : (prepareTemplateContextH 40 c7Heap 0 .null .null (.bool true)).isSome
      = true := rfl
  obtain ⟨p, hp⟩ := Option.isSome_iff_exists.mp hIs
  exact ⟨hwf, hread, p, hp,
    C7_prepare_frame 9 40 c7Heap 0 .null .null c7Orig p.1 p.2 hwf hread hp⟩

end CVGen
